import Mathlib

set_option maxHeartbeats 1000000

/-! Shallow embedding of the ccnudge configuration core (`lib/setup.js`).

JSON values are modelled by `JVal`; JavaScript objects by ordered
association lists (`Obj`), with `setK` and `delK` mirroring property
assignment (update in place, else append) and `delete`.  The settings
file and the backup file are modelled by `SFile` and `BFile`: a missing
settings file reads as the empty document, a malformed one is a parse
error; a missing or malformed backup reads as "no backup".  Filesystem
probes, the working directory and the platform are explicit parameters.
Thrown exceptions are modelled by `OpOut.err`, which also records the
file state at the moment of the throw.  Documents whose `hooks` key
holds a truthy non-object are outside the data model; theorems that
depend on the shape of `hooks` carry a `hooksIsObj` hypothesis. -/

inductive JVal where
  | null : JVal
  | bool : Bool → JVal
  | num : Int → JVal
  | str : String → JVal
  | arr : List JVal → JVal
  | obj : List (String × JVal) → JVal

abbrev Obj := List (String × JVal)

/-- JavaScript truthiness of a JSON value (objects and arrays are always
truthy, including empty ones). -/
def truthy : JVal → Bool
  | .null => false
  | .bool b => b
  | .num n => n != 0
  | .str s => s != ""
  | .arr _ => true
  | .obj _ => true

/-- Property lookup on a JavaScript object (first binding wins; a parsed
JSON object never has duplicate keys). -/
def getK : Obj → String → Option JVal
  | [], _ => none
  | (k', v) :: rest, k => if k' = k then some v else getK rest k

/-- Property assignment `o[k] = v`: update in place if the key exists,
otherwise append at the end (JavaScript insertion order; a JavaScript
object never holds a key twice, so first occurrence is the occurrence). -/
def setK : Obj → String → JVal → Obj
  | [], k, v => [(k, v)]
  | q :: rest, k, v => if q.1 = k then (k, v) :: rest else q :: setK rest k v

/-- Property deletion `delete o[k]` (a key occurs at most once in a
JavaScript object, so removing every occurrence is the same removal). -/
def delK : Obj → String → Obj
  | [], _ => []
  | q :: rest, k => if q.1 = k then delK rest k else q :: delK rest k

/-- `Object.assign(t, s)`: assign every binding of `s` into `t`, in order. -/
def objAssign (t s : Obj) : Obj :=
  s.foldl (fun acc q => setK acc q.1 q.2) t

/-- `truthy` of an optional property (`undefined` is falsy). -/
def truthyOpt : Option JVal → Bool
  | some v => truthy v
  | none => false

/-- `AVAILABLE_EVENTS` (description, value) exactly as in `lib/setup.js`. -/
def AVAILABLE_EVENTS : List (String × String) :=
  [ ("Stop - When Claude finishes responding", "Stop"),
    ("SubagentStop - When subagent tasks complete", "SubagentStop"),
    ("PostToolUse - After tool calls complete", "PostToolUse"),
    ("PreToolUse - Before tool calls (advanced)", "PreToolUse"),
    ("UserPromptSubmit - When user submits a prompt", "UserPromptSubmit"),
    ("Notification - When Claude sends notifications", "Notification"),
    ("SessionStart - When session starts/resumes", "SessionStart"),
    ("SessionEnd - When session ends", "SessionEnd"),
    ("PreCompact - Before compact operations", "PreCompact") ]

/-- `AVAILABLE_EVENTS.map(e => e.value)` — the managed event set. -/
def eventNames : List String := AVAILABLE_EVENTS.map (fun e => e.2)

/-- The settings file: absent (read as `{}`), parses to a document, or
malformed (parse error). -/
inductive SFile where
  | missing : SFile
  | ok : Obj → SFile
  | bad : SFile

/-- The backup file: absent, parses to a document, or malformed (read as
"no backup", never fatal). -/
inductive BFile where
  | absent : BFile
  | ok : Obj → BFile
  | bad : BFile

structure World where
  sf : SFile
  bf : BFile

inductive Err where
  | parse : Err
  | soundNotFound : Err

/-- Operation outcome: normal return, or a thrown error together with the
file state at the moment of the throw. -/
inductive OpOut where
  | ok : World → OpOut
  | err : Err → World → OpOut

def OpOut.world : OpOut → World
  | .ok w => w
  | .err _ w => w

/-- `readSettings`: missing file yields `{}`; malformed JSON throws. -/
def readSettings : SFile → Except Err Obj
  | .missing => .ok []
  | .ok d => .ok d
  | .bad => .error .parse

/-- The settings document currently on disk (empty when the file is
missing); total companion of `readSettings`. -/
def docOf : SFile → Obj
  | .missing => []
  | .ok d => d
  | .bad => []

/-- `getBackupConfig`: any read or parse failure degrades to "no backup". -/
def getBackupConfig : BFile → Option Obj
  | .ok d => some d
  | .absent => none
  | .bad => none

/-- The value of `settings.hooks` as an object (empty when absent or not
an object; the data model keeps `hooks`, when present, an object). -/
def hooksObjD (s : Obj) : Obj :=
  match getK s "hooks" with
  | some (.obj m) => m
  | _ => []

/-- Well-formedness: the `hooks` key, if present, is an object or falsy.
A truthy non-object `hooks` is outside the host data model. -/
def hooksIsObj (s : Obj) : Bool :=
  match getK s "hooks" with
  | some (.obj _) => true
  | some v => !truthy v
  | none => true

/-- The test `settings.hooks && settings.hooks[e]` (also
`settings?.hooks?.[e]` and the guard of `removeNotification`). -/
def truthyAt (s : Obj) (e : String) : Bool :=
  match getK s "hooks" with
  | some (.obj m) => truthyOpt (getK m e)
  | _ => false

/-- `if (!settings.hooks) settings.hooks = {}`. -/
def ensureHooks (s : Obj) : Obj :=
  match getK s "hooks" with
  | some v => if truthy v then s else setK s "hooks" (.obj [])
  | none => setK s "hooks" (.obj [])

/-- The managed hook entries copied by `backupCurrentConfig`, generalized
over the event list for induction. -/
def ccOfL : List String → Obj → Obj
  | [], _ => []
  | e :: l, h =>
    match getK h e with
    | some v => if truthy v then (e, v) :: ccOfL l h else ccOfL l h
    | none => ccOfL l h

/-- `ccnudgeHooks` as built by `backupCurrentConfig` from `settings.hooks`. -/
def ccOf (h : Obj) : Obj := ccOfL eventNames h

/-- `backupCurrentConfig`: snapshot all managed truthy `hooks` entries;
write the backup only when the snapshot is non-empty.  Returns whether a
backup was written. -/
def backupCurrentConfig (w : World) : Except Err (Bool × World) :=
  match readSettings w.sf with
  | .error e => .error e
  | .ok settings =>
    let cc := ccOf (hooksObjD settings)
    if cc.isEmpty then .ok (false, w)
    else .ok (true, { w with bf := .ok cc })

/-- The events found by `disableNotifications`' filter
`eventNames.filter(e => settings.hooks && settings.hooks[e])`. -/
def configuredEvents (s : Obj) : List String :=
  eventNames.filter (fun e => truthyAt s e)

inductive Platform where
  | darwin : Platform
  | linux : Platform
  | win32 : Platform

structure PlatformConfig where
  command : String
  defaultSound : String
  soundsPath : String
  extension : String
  commandSuffix : String

/-- An apostrophe, kept out of string literals. -/
def apos : String := String.singleton (Char.ofNat 39)

/-- `PLATFORM_CONFIGS` from `lib/setup.js`. -/
def platformConfig : Platform → PlatformConfig
  | .darwin =>
    ⟨"afplay", "/System/Library/Sounds/Glass.aiff", "/System/Library/Sounds", ".aiff", ""⟩
  | .linux =>
    ⟨"paplay", "/usr/share/sounds/freedesktop/stereo/complete.oga", "/usr/share/sounds", ".oga", ""⟩
  | .win32 =>
    ⟨"powershell -c (New-Object Media.SoundPlayer",
     "C:\\Windows\\Media\\Windows Notify System Generic.wav",
     "C:\\Windows\\Media", ".wav", ").PlaySync()"⟩

/-- `buildSoundCommand`. -/
def buildSoundCommand (pf : Platform) (soundPath : String) : String :=
  let config := platformConfig pf
  match pf with
  | .win32 => config.command ++ " " ++ apos ++ soundPath ++ apos ++ config.commandSuffix
  | _ => config.command ++ " " ++ soundPath

/-- `buildDesktopNotifyCommand` (message text is a constant). -/
def buildDesktopNotifyCommand : Platform → String
  | .darwin =>
    "osascript -e " ++ apos ++
      "display notification \"Claude Code has finished\" with title \"CCNudge\" sound name \"\"" ++ apos
  | .linux => "notify-send \"CCNudge\" \"Claude Code has finished\""
  | .win32 =>
    "powershell -c \"New-BurntToastNotification -Text " ++ apos ++ "CCNudge" ++ apos ++
      ", " ++ apos ++ "Claude Code has finished" ++ apos ++ "\""

/-- `path.isAbsolute` for the running platform (Windows drive or UNC
paths are approximated by a drive-letter or slash prefix). -/
def isAbsolutePath (pf : Platform) (s : String) : Bool :=
  match pf with
  | .win32 =>
    (match s.data with
     | c :: rest =>
       c = '\\' || c = '/' ||
         (match rest with
          | ':' :: _ => c.isAlpha
          | _ => false)
     | [] => false)
  | _ =>
    (match s.data with
     | '/' :: _ => true
     | _ => false)

/-- `path.join` / `path.resolve` against a base directory (no `..`
normalization; the embedding treats paths as opaque strings). -/
def joinPath (pf : Platform) (base name : String) : String :=
  match pf with
  | .win32 => base ++ "\\" ++ name
  | _ => base ++ "/" ++ name

/-- Sound-path resolution performed by `setupNotification` before the
final existence check: falsy argument means the platform default; an
absolute path is taken verbatim; a bare name is tried first inside the
system sounds directory with the platform extension, then relative to
the working directory. -/
def resolveSound (pf : Platform) (fsEx : String → Bool) (cwd : String)
    (soundPath : Option String) : Except Err String :=
  let config := platformConfig pf
  match soundPath with
  | none => .ok config.defaultSound
  | some s =>
    if s = "" then .ok config.defaultSound
    else if isAbsolutePath pf s then .ok s
    else
      let systemSoundPath := joinPath pf config.soundsPath (s ++ config.extension)
      if fsEx systemSoundPath then .ok systemSoundPath
      else
        let absolutePath := joinPath pf cwd s
        if fsEx absolutePath then .ok absolutePath
        else .error .soundNotFound

/-- One `HookEntry` `{ type: "command", command: cmd }`. -/
def hookEntry (cmd : String) : JVal :=
  .obj [("type", .str "command"), ("command", .str cmd)]

/-- The hook-entry list built by `setupNotification`: the sound command,
then (when enabled) the desktop-notification command. -/
def hookEntries (pf : Platform) (sound : String) (notify : Bool) : List JVal :=
  [hookEntry (buildSoundCommand pf sound)] ++
    (if notify then [hookEntry (buildDesktopNotifyCommand pf)] else [])

/-- The value written to `hooks[event]` by `setupNotification`:
`[ { hooks: entries } ]`. -/
def setupHookVal (pf : Platform) (sound : String) (notify : Bool) : JVal :=
  .arr [.obj [("hooks", .arr (hookEntries pf sound notify))]]

/-- `setupNotification(event, soundPath, enableDesktopNotify)`: backup
unconditionally, resolve and verify the sound, then overwrite
`hooks[event]` and write the settings (the single settings write, last). -/
def setupNotification (pf : Platform) (fsEx : String → Bool) (cwd : String)
    (event : String) (soundPath : Option String) (notify : Bool)
    (w : World) : OpOut :=
  match backupCurrentConfig w with
  | .error e => .err e w
  | .ok (_, w1) =>
    match resolveSound pf fsEx cwd soundPath with
    | .error e => .err e w1
    | .ok sound =>
      if fsEx sound then
        match readSettings w1.sf with
        | .error e => .err e w1
        | .ok settings =>
          let settings := ensureHooks settings
          let h := setK (hooksObjD settings) event (setupHookVal pf sound notify)
          .ok { w1 with sf := .ok (setK settings "hooks" (.obj h)) }
      else .err .soundNotFound w1

/-- `enableNotifications(event)`: restore `hooks` entries from the backup
(one event, or all of them via `Object.assign`); the backup file itself
is only read. -/
def enableNotifications (event : Option String) (w : World) : OpOut :=
  match getBackupConfig w.bf with
  | none => .ok w
  | some backup =>
    match readSettings w.sf with
    | .error e => .err e w
    | .ok settings =>
      let settings := ensureHooks settings
      match event with
      | some e =>
        if truthyOpt (getK backup e) then
          let h := setK (hooksObjD settings) e
            ((getK backup e).getD .null)
          .ok { w with sf := .ok (setK settings "hooks" (.obj h)) }
        else .ok w
      | none =>
        let h := objAssign (hooksObjD settings) backup
        .ok { w with sf := .ok (setK settings "hooks" (.obj h)) }

/-- Remove the `hooks` key when the mapping became empty, else store the
updated mapping (the cleanup shared by disable and remove). -/
def cleanupHooks (settings : Obj) (h : Obj) : Obj :=
  if h.isEmpty then delK settings "hooks" else setK settings "hooks" (.obj h)

/-- `disableNotifications(event)`: no-op when nothing is configured, else
snapshot via `backupCurrentConfig`, delete the targeted (or every)
managed event, clean up an empty `hooks`, and write. -/
def disableNotifications (event : Option String) (w : World) : OpOut :=
  match readSettings w.sf with
  | .error e => .err e w
  | .ok settings =>
    let configured := configuredEvents settings
    if configured.isEmpty then .ok w
    else
      match backupCurrentConfig w with
      | .error e => .err e w
      | .ok (_, w1) =>
        match event with
        | some e =>
          if truthyAt settings e then
            let h := delK (hooksObjD settings) e
            .ok { w1 with sf := .ok (cleanupHooks settings h) }
          else .ok w1
        | none =>
          let h := configured.foldl (fun acc e => delK acc e) (hooksObjD settings)
          .ok { w1 with sf := .ok (cleanupHooks settings h) }

/-- `removeNotification(event)`: no-op when `hooks[event]` is absent or
falsy; otherwise delete it, clean up, unlink the backup file, write. -/
def removeNotification (event : String) (w : World) : OpOut :=
  match readSettings w.sf with
  | .error e => .err e w
  | .ok settings =>
    if truthyAt settings event then
      let h := delK (hooksObjD settings) event
      .ok { sf := .ok (cleanupHooks settings h), bf := .absent }
    else .ok w

/-! Status reporting.

`getStatus` recovers the sound path from the command string of the first
entry containing a player marker, via the leftmost greedy match of the
JavaScript regex `\/[^\s]+\.(aiff|wav|mp3|oga)` (no end anchor), and the
desktop-notification flag by scanning every entry for a notifier marker.
Hook entries whose `command` is not a string, and `hooks` fields that
are not arrays, would make the JavaScript throw a `TypeError` midway;
they are outside the host data model and are modelled as absent/empty. -/

/-- ASCII whitespace recognised by the regex class `\s`. -/
def isWsChar (c : Char) : Bool :=
  c = ' ' || c = '\t' || c = '\n' || c = '\r' || c = Char.ofNat 11 || c = Char.ofNat 12

/-- The audio-extension alternatives, in the regex alternation order. -/
def extAlts : List (List Char) :=
  ["aiff".data, "wav".data, "mp3".data, "oga".data]

/-- Match the `\.(aiff|wav|mp3|oga)` tail of the regex at this position. -/
def tryTail (cs : List Char) : Option (List Char) :=
  match cs with
  | '.' :: rest =>
    extAlts.findSome? (fun ext =>
      if ext.isPrefixOf rest then some ('.' :: ext) else none)
  | _ => none

/-- Greedy backtracking for `[^\s]+\.(aiff|wav|mp3|oga)` with at least
one body character already consumed: prefer extending the body, and on
failure try the tail at the current position. -/
def matchRest : List Char → Option (List Char)
  | [] => none
  | c :: rest =>
    if isWsChar c then none
    else
      match matchRest rest with
      | some t => some (c :: t)
      | none => tryTail (c :: rest)

/-- Match `[^\s]+\.(aiff|wav|mp3|oga)` just after a `/`. -/
def matchAfterSlash : List Char → Option (List Char)
  | [] => none
  | c :: rest =>
    if isWsChar c then none
    else
      match matchRest rest with
      | some t => some (c :: t)
      | none => none

/-- Leftmost match of `\/[^\s]+\.(aiff|wav|mp3|oga)` in a string. -/
def jsExtractSound : List Char → Option (List Char)
  | [] => none
  | c :: rest =>
    if c = '/' then
      match matchAfterSlash rest with
      | some t => some ('/' :: t)
      | none => jsExtractSound rest
    else jsExtractSound rest

/-- `command.match(/\/[^\s]+\.(aiff|wav|mp3|oga)/)`, first match. -/
def extractSound (s : String) : Option String :=
  (jsExtractSound s.data).map (fun cs => String.mk cs)

/-- JavaScript `String.prototype.includes`. -/
def hasSub (hay pat : List Char) : Bool :=
  if pat.isPrefixOf hay then true
  else
    match hay with
    | [] => false
    | _ :: t => hasSub t pat

def hasSubS (s pat : String) : Bool := hasSub s.data pat.data

/-- The `command` field of a hook entry, when it is a string. -/
def cmdOf : JVal → Option String
  | .obj m =>
    (match getK m "command" with
     | some (.str s) => some s
     | _ => none)
  | _ => none

/-- The player-marker test used to find the sound entry. -/
def isSoundCmd (h : JVal) : Bool :=
  match cmdOf h with
  | some s => hasSubS s "afplay" || hasSubS s "paplay" || hasSubS s "Media.SoundPlayer"
  | none => false

/-- The notifier-marker test used to recover the desktop flag. -/
def hasDesktopMark (h : JVal) : Bool :=
  match cmdOf h with
  | some s => hasSubS s "osascript" || hasSubS s "notify-send" ||
      hasSubS s "New-BurntToastNotification"
  | none => false

/-- The printed sound reference: the regex match if any, else the whole
command string. -/
def soundField (h : JVal) : String :=
  match cmdOf h with
  | some s =>
    (match extractSound s with
     | some p => p
     | none => s)
  | none => ""

/-- `settings.hooks[event][0]?.hooks || []`. -/
def entriesOf (settings : Obj) (e : String) : List JVal :=
  match getK (hooksObjD settings) e with
  | some (.arr (g :: _)) =>
    (match g with
     | .obj m =>
       (match getK m "hooks" with
        | some (.arr es) => es
        | _ => [])
     | _ => [])
  | _ => []

inductive StatusKind where
  | enabled : StatusKind
  | disabled : StatusKind
  | notConfigured : StatusKind

structure EventReport where
  event : String
  sound : Option String
  desktopNotify : Bool

structure StatusReport where
  kind : StatusKind
  events : List EventReport
  backupEvents : List String

/-- The per-event block printed by `getStatus` for an enabled event. -/
def reportFor (settings : Obj) (e : String) : EventReport :=
  let entries := entriesOf settings e
  ⟨e, (entries.find? isSoundCmd).map soundField, entries.any hasDesktopMark⟩

/-- `getStatus` (read-only): ENABLED when some managed event passes the
hooks filter, else DISABLED when the backup parses (its keys listed),
else NOT CONFIGURED. -/
def getStatus (w : World) : Except Err StatusReport :=
  match readSettings w.sf with
  | .error e => .error e
  | .ok settings =>
    let configured := configuredEvents settings
    if configured.isEmpty then
      match getBackupConfig w.bf with
      | some backup => .ok ⟨.disabled, [], backup.map (fun q => q.1)⟩
      | none => .ok ⟨.notConfigured, [], []⟩
    else .ok ⟨.enabled, configured.map (fun e => reportFor settings e), []⟩

theorem extractSound_default_path :
    extractSound "afplay /System/Library/Sounds/Glass.aiff" =
      some "/System/Library/Sounds/Glass.aiff" := by decide

theorem extractSound_space_path : extractSound "afplay /a b.wav" = none := by
  decide

theorem extractSound_dotted_stem :
    extractSound "afplay /a.b.wav" = some "/a.b.wav" := by decide

theorem extractSound_no_end_anchor :
    extractSound "paplay /x.wavy" = some "/x.wav" := by decide


/-! Lemmas about the object primitives. -/

theorem objAssign_nil (t : Obj) : objAssign t [] = t := rfl

theorem objAssign_cons (t : Obj) (q : String × JVal) (s : Obj) :
    objAssign t (q :: s) = objAssign (setK t q.1 q.2) s := rfl

theorem getK_setK_self (o : Obj) (k : String) (v : JVal) :
    getK (setK o k v) k = some v := by
  induction o with
  | nil => simp [setK, getK]
  | cons q rest ih =>
    obtain ⟨k₁, v₁⟩ := q
    by_cases hk : k₁ = k
    · simp [setK, hk, getK]
    · simp [setK, hk, getK, ih]

theorem getK_setK_ne {k k' : String} (o : Obj) (v : JVal) (h : k' ≠ k) :
    getK (setK o k' v) k = getK o k := by
  induction o with
  | nil => simp [setK, getK, h]
  | cons q rest ih =>
    obtain ⟨k₁, v₁⟩ := q
    by_cases hk : k₁ = k'
    · subst hk
      simp [setK, getK, h]
    · simp [setK, hk, getK, ih]

theorem setK_idem (o : Obj) (k : String) (v : JVal) :
    setK (setK o k v) k v = setK o k v := by
  induction o with
  | nil => simp [setK]
  | cons q rest ih =>
    obtain ⟨k₁, v₁⟩ := q
    by_cases hk : k₁ = k
    · simp [setK, hk]
    · simp [setK, hk, ih]

theorem setK_eq_self {o : Obj} {k : String} {v : JVal}
    (h : getK o k = some v) : setK o k v = o := by
  induction o with
  | nil => simp [getK] at h
  | cons q rest ih =>
    obtain ⟨k₁, v₁⟩ := q
    by_cases hk : k₁ = k
    · subst hk
      simp only [getK, eq_self_iff_true, if_true, Option.some.injEq] at h
      simp only [setK, eq_self_iff_true, if_true]
      rw [← h]
    · simp only [getK, if_neg hk] at h
      simp [setK, hk, ih h]

theorem getK_delK_self (o : Obj) (k : String) : getK (delK o k) k = none := by
  induction o with
  | nil => rfl
  | cons q rest ih =>
    obtain ⟨k₁, v₁⟩ := q
    by_cases hk : k₁ = k
    · simp [delK, hk, ih]
    · simp [delK, hk, getK, ih]

theorem getK_delK_ne {k k' : String} (o : Obj) (h : k' ≠ k) :
    getK (delK o k') k = getK o k := by
  induction o with
  | nil => rfl
  | cons q rest ih =>
    obtain ⟨k₁, v₁⟩ := q
    by_cases hk : k₁ = k'
    · subst hk
      simp [delK, getK, h, ih]
    · simp [delK, hk, getK, ih]

theorem getK_foldl_delK (l : List String) (o : Obj) (k : String) :
    getK (l.foldl delK o) k = if k ∈ l then none else getK o k := by
  induction l generalizing o with
  | nil => simp
  | cons e l ih =>
    by_cases hk : k = e
    · subst hk
      simp only [List.foldl_cons, ih, List.mem_cons, true_or, if_true]
      by_cases hl : k ∈ l
      · simp [hl]
      · simp [hl, getK_delK_self]
    · simp only [List.foldl_cons, ih, List.mem_cons]
      by_cases hl : k ∈ l
      · simp [hl]
      · have hne : e ≠ k := fun hh => hk hh.symm
        simp [hl, hk, getK_delK_ne o hne]

theorem getK_objAssign_not_mem {s : Obj} {k : String} (t : Obj)
    (h : k ∉ s.map Prod.fst) : getK (objAssign t s) k = getK t k := by
  induction s generalizing t with
  | nil => rfl
  | cons q rest ih =>
    simp only [List.map_cons, List.mem_cons, not_or] at h
    rw [objAssign_cons, ih (setK t q.1 q.2) h.2, getK_setK_ne _ _ (Ne.symm h.1)]

theorem getK_objAssign_mem {s : Obj} {k : String} {v : JVal} (t : Obj)
    (hn : (s.map Prod.fst).Nodup) (h : (k, v) ∈ s) :
    getK (objAssign t s) k = some v := by
  induction s generalizing t with
  | nil => simp at h
  | cons q rest ih =>
    simp only [List.map_cons, List.nodup_cons] at hn
    rw [objAssign_cons]
    rcases List.mem_cons.mp h with h1 | h1
    · have hnot : k ∉ rest.map Prod.fst := by
        rw [← h1] at hn
        exact hn.1
      rw [getK_objAssign_not_mem (setK t q.1 q.2) hnot, ← h1, getK_setK_self]
    · exact ih (setK t q.1 q.2) hn.2 h1

theorem objAssign_fix {s : Obj} (t : Obj)
    (h : ∀ q ∈ s, getK t q.1 = some q.2) : objAssign t s = t := by
  induction s with
  | nil => rfl
  | cons q rest ih =>
    rw [objAssign_cons, setK_eq_self (h q (by simp))]
    exact ih (fun q hq => h q (List.mem_cons_of_mem _ hq))

theorem keys_ccOfL_sub {l : List String} {h : Obj} {k : String}
    (hk : k ∈ (ccOfL l h).map Prod.fst) : k ∈ l := by
  induction l with
  | nil => simp [ccOfL] at hk
  | cons a l ih =>
    rcases hcase : getK h a with _ | v
    · rw [show ccOfL (a :: l) h = ccOfL l h by simp [ccOfL, hcase]] at hk
      exact List.mem_cons_of_mem _ (ih hk)
    · by_cases ht : truthy v
      · rw [show ccOfL (a :: l) h = (a, v) :: ccOfL l h by
          simp [ccOfL, hcase, ht]] at hk
        simp only [List.map_cons, List.mem_cons] at hk
        rcases hk with h1 | h1
        · simp [h1]
        · exact List.mem_cons_of_mem _ (ih h1)
      · rw [show ccOfL (a :: l) h = ccOfL l h by simp [ccOfL, hcase, ht]] at hk
        exact List.mem_cons_of_mem _ (ih hk)

theorem getK_ccOfL (l : List String) (h : Obj) (e : String) (hl : l.Nodup) :
    getK (ccOfL l h) e =
      if e ∈ l ∧ truthyOpt (getK h e) = true then getK h e else none := by
  induction l with
  | nil => simp [ccOfL, getK]
  | cons a l ih =>
    simp only [List.nodup_cons] at hl
    rcases hcase : getK h a with _ | v
    · rw [show ccOfL (a :: l) h = ccOfL l h by simp [ccOfL, hcase]]
      rw [ih hl.2]
      by_cases hea : e = a
      · subst hea
        simp [hcase, truthyOpt, hl.1]
      · simp [List.mem_cons, hea]
    · by_cases ht : truthy v
      · rw [show ccOfL (a :: l) h = (a, v) :: ccOfL l h by
          simp [ccOfL, hcase, ht]]
        by_cases hea : e = a
        · subst hea
          simp [getK, hcase, truthyOpt, ht]
        · have hne : ¬ a = e := fun hh => hea hh.symm
          simp only [getK, if_neg hne]
          rw [ih hl.2]
          simp [List.mem_cons, hea]
      · rw [show ccOfL (a :: l) h = ccOfL l h by simp [ccOfL, hcase, ht]]
        rw [ih hl.2]
        by_cases hea : e = a
        · subst hea
          simp [hcase, truthyOpt, ht]
        · simp [List.mem_cons, hea]

theorem nodup_keys_ccOfL {l : List String} (h : Obj) (hl : l.Nodup) :
    ((ccOfL l h).map Prod.fst).Nodup := by
  induction l with
  | nil => simp [ccOfL]
  | cons a l ih =>
    simp only [List.nodup_cons] at hl
    rcases hcase : getK h a with _ | v
    · rw [show ccOfL (a :: l) h = ccOfL l h by simp [ccOfL, hcase]]
      exact ih hl.2
    · by_cases ht : truthy v
      · rw [show ccOfL (a :: l) h = (a, v) :: ccOfL l h by
          simp [ccOfL, hcase, ht]]
        simp only [List.map_cons, List.nodup_cons]
        exact ⟨fun hmem => hl.1 (keys_ccOfL_sub hmem), ih hl.2⟩
      · rw [show ccOfL (a :: l) h = ccOfL l h by simp [ccOfL, hcase, ht]]
        exact ih hl.2

theorem eventNames_nodup : eventNames.Nodup := by decide

/-! Lemmas about the operation building blocks. -/

theorem getK_ensureHooks_ne {d : Obj} {K : String} (h : K ≠ "hooks") :
    getK (ensureHooks d) K = getK d K := by
  unfold ensureHooks
  have hne : "hooks" ≠ K := fun hh => h hh.symm
  rcases getK d "hooks" with _ | v
  · simp [getK_setK_ne _ _ hne]
  · by_cases ht : truthy v
    · simp [ht]
    · simp [ht, getK_setK_ne _ _ hne]

theorem hooksObjD_setHooks (d : Obj) (h : Obj) :
    hooksObjD (setK d "hooks" (.obj h)) = h := by
  unfold hooksObjD
  rw [getK_setK_self]

theorem hooksObjD_ensureHooks (d : Obj) :
    hooksObjD (ensureHooks d) = hooksObjD d := by
  unfold ensureHooks
  rcases hc : getK d "hooks" with _ | v
  · simp only [hc]
    rw [hooksObjD_setHooks]
    unfold hooksObjD
    rw [hc]
  · simp only [hc]
    by_cases ht : truthy v
    · simp [ht]
    · simp only [ht, if_false, Bool.false_eq_true]
      rw [hooksObjD_setHooks]
      unfold hooksObjD
      rw [hc]
      cases v <;> simp_all [truthy]

theorem getK_cleanupHooks_ne {d : Obj} {h : Obj} {K : String} (hK : K ≠ "hooks") :
    getK (cleanupHooks d h) K = getK d K := by
  unfold cleanupHooks
  have hne : "hooks" ≠ K := fun hh => hK hh.symm
  split
  · exact getK_delK_ne _ hne
  · exact getK_setK_ne _ _ hne

theorem getK_delK_hooks_hooks (d : Obj) :
    getK (delK d "hooks") "hooks" = none := getK_delK_self d "hooks"

theorem hooksObjD_cleanupHooks (d : Obj) (h : Obj) (k : String) :
    getK (hooksObjD (cleanupHooks d h)) k = getK h k := by
  unfold cleanupHooks
  split
  · next he =>
    have : h = [] := by simpa using he
    subst this
    unfold hooksObjD
    rw [getK_delK_self]
  · rw [hooksObjD_setHooks]

theorem backupCurrentConfig_eq (w : World) (d : Obj)
    (h : readSettings w.sf = .ok d) :
    backupCurrentConfig w =
      if (ccOf (hooksObjD d)).isEmpty then Except.ok (false, w)
      else Except.ok (true, { w with bf := .ok (ccOf (hooksObjD d)) }) := by
  unfold backupCurrentConfig
  rw [h]

theorem backupCurrentConfig_sf {w : World} {b : Bool} {w' : World}
    (h : backupCurrentConfig w = .ok (b, w')) : w'.sf = w.sf := by
  unfold backupCurrentConfig at h
  rcases hr : readSettings w.sf with e | d
  · rw [hr] at h
    cases h
  · rw [hr] at h
    simp only at h
    split at h
    · cases h
      rfl
    · cases h
      rfl

theorem backupCurrentConfig_bf {w : World} {b : Bool} {w' : World} {d : Obj}
    (hr : readSettings w.sf = .ok d)
    (h : backupCurrentConfig w = .ok (b, w')) :
    w'.bf = w.bf ∨ w'.bf = .ok (ccOf (hooksObjD d)) := by
  rw [backupCurrentConfig_eq w d hr] at h
  split at h
  · cases h
    exact Or.inl rfl
  · cases h
    exact Or.inr rfl

/-- C9: `enableNotifications`, with or without an event argument, never
creates, modifies or deletes the backup file — in this embedding its
result world always carries the backup state it was called with, on
success and on error alike. -/
theorem C9_enable_backup_readonly (ev : Option String) (w : World) :
    ((enableNotifications ev w).world).bf = w.bf := by
  unfold enableNotifications
  rcases hb : getBackupConfig w.bf with _ | backup
  · rfl
  · rcases hs : readSettings w.sf with e | settings
    · rfl
    · cases ev with
      | none => rfl
      | some e =>
        by_cases ht : truthyOpt (getK backup e) = true
        · simp only [ht, if_true]
          rfl
        · simp only [ht, if_false]
          rfl

/-- C3 (amended): a fatal error never follows a settings write — on any
thrown error the settings document is exactly as before the call, and
`enableNotifications`, `disableNotifications` and `removeNotification`
leave the whole world untouched.  `setupNotification`, however, runs its
unconditional backup step before resolving the sound, so on a
`SoundNotFoundError` the backup document may already have been
overwritten (see the counterexample); only the settings document is
guaranteed to be in its pre-call state. -/
theorem C3_fatal_error_frame (pf : Platform) (fsEx : String → Bool)
    (cwd : String) (ev : String) (sp : Option String) (nf : Bool)
    (w w₁ w₂ w₃ w₄ : World) (e₁ e₂ e₃ e₄ : Err) :
    (setupNotification pf fsEx cwd ev sp nf w = .err e₁ w₁ → w₁.sf = w.sf) ∧
    (∀ evO, enableNotifications evO w = .err e₂ w₂ → w₂ = w) ∧
    (∀ evO, disableNotifications evO w = .err e₃ w₃ → w₃ = w) ∧
    (removeNotification ev w = .err e₄ w₄ → w₄ = w) := by
  refine ⟨?_, ?_, ?_, ?_⟩
  · unfold setupNotification
    rcases hbc : backupCurrentConfig w with e | bw
    · intro h
      cases h
      rfl
    · obtain ⟨b, w1⟩ := bw
      have hsf : w1.sf = w.sf := backupCurrentConfig_sf hbc
      rcases hr : resolveSound pf fsEx cwd sp with e | sound
      · intro h
        cases h
        exact hsf
      · by_cases hfs : fsEx sound = true
        · simp only [hfs, if_true]
          rcases hrs : readSettings w1.sf with e | settings
          · intro h
            cases h
            exact hsf
          · intro h
            cases h
        · simp only [hfs, if_false]
          intro h
          cases h
          exact hsf
  · intro evO h
    obtain ⟨sf, bf⟩ := w
    cases bf with
    | absent => cases h
    | bad => cases h
    | ok backup =>
      cases sf with
      | bad =>
        cases h
        rfl
      | missing =>
        cases evO with
        | none => cases h
        | some e =>
          simp only [enableNotifications, getBackupConfig, readSettings] at h
          split at h <;> cases h
      | ok d =>
        cases evO with
        | none => cases h
        | some e =>
          simp only [enableNotifications, getBackupConfig, readSettings] at h
          split at h <;> cases h
  · intro evO h
    obtain ⟨sf, bf⟩ := w
    cases sf with
    | bad =>
      cases h
      rfl
    | missing => cases h
    | ok d =>
      simp only [disableNotifications, readSettings] at h
      split at h
      · cases h
      · rcases hbc : backupCurrentConfig ⟨SFile.ok d, bf⟩ with e | bw
        · rw [hbc] at h
          cases h
          rfl
        · obtain ⟨b, w1⟩ := bw
          rw [hbc] at h
          cases evO with
          | none => cases h
          | some e =>
            by_cases ht : truthyAt d e = true
            · simp only [ht, if_true] at h
              cases h
            · simp only [ht, if_false] at h
              cases h
  · intro h
    obtain ⟨sf, bf⟩ := w
    cases sf with
    | bad =>
      cases h
      rfl
    | missing => cases h
    | ok d =>
      simp only [removeNotification, readSettings] at h
      split at h <;> cases h

/-- C3 counterexample: `setupNotification` fails with a
`SoundNotFoundError` (the requested absolute sound path does not exist),
yet the backup document is not in its pre-call state: it was absent
before the call and holds a fresh snapshot of the managed hooks after
the throw.  This falsifies the claim that a fatal `SoundNotFoundError`
leaves the backup document untouched. -/
theorem C3_counterexample :
    setupNotification .darwin (fun _ => false) "/" "Stop" (some "/missing.wav")
        false ⟨.ok [("hooks", .obj [("Stop", .arr [.str "x"])])], .absent⟩ =
      .err .soundNotFound
        ⟨.ok [("hooks", .obj [("Stop", .arr [.str "x"])])],
         .ok [("Stop", .arr [.str "x"])]⟩ ∧
    BFile.ok [("Stop", JVal.arr [.str "x"])] ≠ BFile.absent := by
  refine ⟨rfl, fun hcontra => ?_⟩
  cases hcontra

/-- C3 witness: the settings-frame part of `C3_fatal_error_frame`
instantiated at the concrete failing setup call. -/
theorem C3_witness :
    (⟨SFile.ok [("hooks", .obj [("Stop", .arr [.str "x"])])],
      BFile.ok [("Stop", .arr [.str "x"])]⟩ : World).sf =
      (⟨SFile.ok [("hooks", .obj [("Stop", .arr [.str "x"])])],
        BFile.absent⟩ : World).sf :=
  (C3_fatal_error_frame .darwin (fun _ => false) "/" "Stop"
      (some "/missing.wav") false
      ⟨.ok [("hooks", .obj [("Stop", .arr [.str "x"])])], .absent⟩
      ⟨.ok [("hooks", .obj [("Stop", .arr [.str "x"])])],
       .ok [("Stop", .arr [.str "x"])]⟩
      ⟨.missing, .absent⟩ ⟨.missing, .absent⟩ ⟨.missing, .absent⟩
      .soundNotFound .parse .parse .parse).1 rfl

/-! Result shapes of the operations. -/

/-- The settings document written by `setupNotification` and by the
single-event branch of `enableNotifications`. -/
def writeHooksDoc (d : Obj) (ev : String) (v : JVal) : Obj :=
  setK (ensureHooks d) "hooks" (.obj (setK (hooksObjD (ensureHooks d)) ev v))

/-- The backup state after `backupCurrentConfig` has run over document
`d` (unchanged when there was nothing to snapshot). -/
def bfAfterBackup (d : Obj) (bf : BFile) : BFile :=
  if (ccOf (hooksObjD d)).isEmpty then bf else .ok (ccOf (hooksObjD d))

/-- The settings document written by `enableNotifications` with no event
argument. -/
def enableAllDoc (d backup : Obj) : Obj :=
  setK (ensureHooks d) "hooks" (.obj (objAssign (hooksObjD (ensureHooks d)) backup))

theorem docOf_of_read {sf : SFile} {d : Obj} (h : readSettings sf = .ok d) :
    docOf sf = d := by
  cases sf with
  | missing =>
    cases h
    rfl
  | ok d' =>
    cases h
    rfl
  | bad => cases h

theorem setup_shape (pf : Platform) (fsEx : String → Bool) (cwd : String)
    (ev : String) (sp : Option String) (nf : Bool) (w : World) (d : Obj)
    (hr : readSettings w.sf = .ok d) :
    setupNotification pf fsEx cwd ev sp nf w =
      (match resolveSound pf fsEx cwd sp with
       | .error e => .err e ⟨w.sf, bfAfterBackup d w.bf⟩
       | .ok sound =>
         if fsEx sound then
           .ok ⟨.ok (writeHooksDoc d ev (setupHookVal pf sound nf)),
                bfAfterBackup d w.bf⟩
         else .err .soundNotFound ⟨w.sf, bfAfterBackup d w.bf⟩) := by
  unfold setupNotification
  rw [backupCurrentConfig_eq w d hr]
  unfold bfAfterBackup
  by_cases hcc : (ccOf (hooksObjD d)).isEmpty = true
  · simp only [hcc, if_true]
    rcases hres : resolveSound pf fsEx cwd sp with e | sound
    · rfl
    · by_cases hfs : fsEx sound = true
      · simp only [hfs, if_true]
        rw [hr]
        rfl
      · simp only [hfs, if_false]
        rfl
  · rw [Bool.not_eq_true] at hcc
    simp only [hcc, Bool.false_eq_true, if_false]
    rcases hres : resolveSound pf fsEx cwd sp with e | sound
    · rfl
    · by_cases hfs : fsEx sound = true
      · simp only [hfs, if_true]
        rw [show ({ w with bf := BFile.ok (ccOf (hooksObjD d)) } : World).sf = w.sf
            from rfl, hr]
        rfl
      · simp only [hfs, if_false]
        rfl

theorem enable_shape_none (w : World) (backup d : Obj)
    (hb : getBackupConfig w.bf = some backup)
    (hr : readSettings w.sf = .ok d) :
    enableNotifications none w = .ok ⟨.ok (enableAllDoc d backup), w.bf⟩ := by
  unfold enableNotifications
  rw [hb, hr]
  rfl

theorem enable_shape_some (w : World) (backup d : Obj) (e : String)
    (hb : getBackupConfig w.bf = some backup)
    (hr : readSettings w.sf = .ok d) :
    enableNotifications (some e) w =
      (if truthyOpt (getK backup e) = true then
        .ok ⟨.ok (writeHooksDoc d e ((getK backup e).getD .null)), w.bf⟩
      else .ok w) := by
  unfold enableNotifications
  rw [hb, hr]
  rfl

theorem disable_noop (evO : Option String) (w : World) (d : Obj)
    (hr : readSettings w.sf = .ok d)
    (hce : (configuredEvents d).isEmpty = true) :
    disableNotifications evO w = .ok w := by
  unfold disableNotifications
  rw [hr]
  simp only [hce, if_true]

theorem disable_shape_none (w : World) (d : Obj)
    (hr : readSettings w.sf = .ok d)
    (hce : (configuredEvents d).isEmpty = false) :
    disableNotifications none w =
      .ok ⟨.ok (cleanupHooks d ((configuredEvents d).foldl delK (hooksObjD d))),
           bfAfterBackup d w.bf⟩ := by
  unfold disableNotifications
  rw [hr]
  simp only [hce, Bool.false_eq_true, if_false]
  rw [backupCurrentConfig_eq w d hr]
  unfold bfAfterBackup
  by_cases hcc : (ccOf (hooksObjD d)).isEmpty = true
  · simp only [hcc, if_true]
  · rw [Bool.not_eq_true] at hcc
    simp only [hcc, Bool.false_eq_true, if_false]

theorem disable_shape_some (w : World) (d : Obj) (e : String)
    (hr : readSettings w.sf = .ok d)
    (hce : (configuredEvents d).isEmpty = false) :
    disableNotifications (some e) w =
      (if truthyAt d e = true then
        .ok ⟨.ok (cleanupHooks d (delK (hooksObjD d) e)), bfAfterBackup d w.bf⟩
      else .ok ⟨w.sf, bfAfterBackup d w.bf⟩) := by
  unfold disableNotifications
  rw [hr]
  simp only [hce, Bool.false_eq_true, if_false]
  rw [backupCurrentConfig_eq w d hr]
  unfold bfAfterBackup
  by_cases hcc : (ccOf (hooksObjD d)).isEmpty = true
  · simp only [hcc, if_true]
  · rw [Bool.not_eq_true] at hcc
    simp only [hcc, Bool.false_eq_true, if_false]

theorem remove_shape (w : World) (d : Obj) (e : String)
    (hr : readSettings w.sf = .ok d) :
    removeNotification e w =
      (if truthyAt d e = true then
        .ok ⟨.ok (cleanupHooks d (delK (hooksObjD d) e)), .absent⟩
      else .ok w) := by
  unfold removeNotification
  rw [hr]

theorem writeHooksDoc_frame (d : Obj) (ev : String) (v : JVal) (K k : String)
    (hK : K ≠ "hooks") (hke : ev ≠ k) :
    getK (writeHooksDoc d ev v) K = getK d K ∧
    getK (hooksObjD (writeHooksDoc d ev v)) k = getK (hooksObjD d) k := by
  constructor
  · unfold writeHooksDoc
    rw [getK_setK_ne _ _ (fun hh => hK hh.symm), getK_ensureHooks_ne hK]
  · unfold writeHooksDoc
    rw [hooksObjD_setHooks, getK_setK_ne _ _ hke, hooksObjD_ensureHooks]

theorem cleanup_delK_frame (d : Obj) (e : String) (K k : String)
    (hK : K ≠ "hooks") (hke : e ≠ k) :
    getK (cleanupHooks d (delK (hooksObjD d) e)) K = getK d K ∧
    getK (hooksObjD (cleanupHooks d (delK (hooksObjD d) e))) k =
      getK (hooksObjD d) k := by
  refine ⟨getK_cleanupHooks_ne hK, ?_⟩
  rw [hooksObjD_cleanupHooks, getK_delK_ne _ hke]

theorem not_mem_configured {d : Obj} {k : String} (hk : k ∉ eventNames) :
    k ∉ configuredEvents d := fun hmem =>
  hk (List.mem_of_mem_filter hmem)

/-- C2 (amended): unmanaged top-level keys, and unmanaged keys inside
`hooks`, are preserved by every operation — provided the event argument
(when one is given) names a managed event and the backup's keys are all
managed event names.  Unrestricted arguments break the claim as stated:
the operations perform no validation, so e.g. `removeNotification`
called with the unmanaged key itself deletes it (see the
counterexample), and `setupNotification` overwrites it (cf. C10).
`getStatus` is embedded as a pure reader of the world, so it moves no
key by construction. -/
theorem C2_unmanaged_frame (w : World) (d : Obj) (K k : String)
    (hr : readSettings w.sf = .ok d)
    (hK : K ≠ "hooks") (hk : k ∉ eventNames)
    (hwf : hooksIsObj d = true) :
    (∀ pf fsEx cwd ev sp nf, ev ∈ eventNames →
      getK (docOf ((setupNotification pf fsEx cwd ev sp nf w).world).sf) K =
        getK d K ∧
      getK (hooksObjD (docOf ((setupNotification pf fsEx cwd ev sp nf w).world).sf)) k =
        getK (hooksObjD d) k) ∧
    (∀ evO, (∀ e, evO = some e → e ∈ eventNames) →
      (∀ m q, getBackupConfig w.bf = some m → q ∈ m → q.1 ∈ eventNames) →
      getK (docOf ((enableNotifications evO w).world).sf) K = getK d K ∧
      getK (hooksObjD (docOf ((enableNotifications evO w).world).sf)) k =
        getK (hooksObjD d) k) ∧
    (∀ evO, (∀ e, evO = some e → e ∈ eventNames) →
      getK (docOf ((disableNotifications evO w).world).sf) K = getK d K ∧
      getK (hooksObjD (docOf ((disableNotifications evO w).world).sf)) k =
        getK (hooksObjD d) k) ∧
    (∀ e, e ∈ eventNames →
      getK (docOf ((removeNotification e w).world).sf) K = getK d K ∧
      getK (hooksObjD (docOf ((removeNotification e w).world).sf)) k =
        getK (hooksObjD d) k) := by
  have hdoc : docOf w.sf = d := docOf_of_read hr
  refine ⟨?_, ?_, ?_, ?_⟩
  · intro pf fsEx cwd ev sp nf hev
    rw [setup_shape pf fsEx cwd ev sp nf w d hr]
    rcases hres : resolveSound pf fsEx cwd sp with e | sound
    · show getK (docOf w.sf) K = getK d K ∧
        getK (hooksObjD (docOf w.sf)) k = getK (hooksObjD d) k
      rw [hdoc]
      exact ⟨rfl, rfl⟩
    · dsimp only
      by_cases hfs : fsEx sound = true
      · rw [if_pos hfs]
        show getK (writeHooksDoc d ev (setupHookVal pf sound nf)) K = getK d K ∧
          getK (hooksObjD (writeHooksDoc d ev (setupHookVal pf sound nf))) k =
            getK (hooksObjD d) k
        exact writeHooksDoc_frame d ev _ K k hK (fun hh => hk (hh ▸ hev))
      · rw [if_neg hfs]
        show getK (docOf w.sf) K = getK d K ∧
          getK (hooksObjD (docOf w.sf)) k = getK (hooksObjD d) k
        rw [hdoc]
        exact ⟨rfl, rfl⟩
  · intro evO hevO hbk
    rcases hb : getBackupConfig w.bf with _ | backup
    · have hnone : enableNotifications evO w = .ok w := by
        unfold enableNotifications
        rw [hb]
      rw [hnone]
      show getK (docOf w.sf) K = getK d K ∧
        getK (hooksObjD (docOf w.sf)) k = getK (hooksObjD d) k
      rw [hdoc]
      exact ⟨rfl, rfl⟩
    · cases evO with
      | none =>
        rw [enable_shape_none w backup d hb hr]
        show getK (enableAllDoc d backup) K = getK d K ∧
          getK (hooksObjD (enableAllDoc d backup)) k = getK (hooksObjD d) k
        constructor
        · unfold enableAllDoc
          rw [getK_setK_ne _ _ (fun hh => hK hh.symm), getK_ensureHooks_ne hK]
        · unfold enableAllDoc
          rw [hooksObjD_setHooks]
          have hnot : k ∉ backup.map Prod.fst := by
            intro hmem
            rcases List.mem_map.mp hmem with ⟨q, hq, hq1⟩
            exact hk (hq1 ▸ hbk backup q hb hq)
          rw [getK_objAssign_not_mem _ hnot, hooksObjD_ensureHooks]
      | some e =>
        have hev : e ∈ eventNames := hevO e rfl
        rw [enable_shape_some w backup d e hb hr]
        by_cases ht : truthyOpt (getK backup e) = true
        · rw [if_pos ht]
          show getK (writeHooksDoc d e ((getK backup e).getD .null)) K = getK d K ∧
            getK (hooksObjD (writeHooksDoc d e ((getK backup e).getD .null))) k =
              getK (hooksObjD d) k
          exact writeHooksDoc_frame d e _ K k hK (fun hh => hk (hh ▸ hev))
        · rw [if_neg ht]
          show getK (docOf w.sf) K = getK d K ∧
            getK (hooksObjD (docOf w.sf)) k = getK (hooksObjD d) k
          rw [hdoc]
          exact ⟨rfl, rfl⟩
  · intro evO hevO
    by_cases hce : (configuredEvents d).isEmpty = true
    · rw [disable_noop evO w d hr hce]
      show getK (docOf w.sf) K = getK d K ∧
        getK (hooksObjD (docOf w.sf)) k = getK (hooksObjD d) k
      rw [hdoc]
      exact ⟨rfl, rfl⟩
    · rw [Bool.not_eq_true] at hce
      cases evO with
      | none =>
        rw [disable_shape_none w d hr hce]
        show getK (cleanupHooks d ((configuredEvents d).foldl delK (hooksObjD d))) K =
            getK d K ∧
          getK (hooksObjD
              (cleanupHooks d ((configuredEvents d).foldl delK (hooksObjD d)))) k =
            getK (hooksObjD d) k
        refine ⟨getK_cleanupHooks_ne hK, ?_⟩
        rw [hooksObjD_cleanupHooks, getK_foldl_delK,
          if_neg (not_mem_configured hk)]
      | some e =>
        have hev : e ∈ eventNames := hevO e rfl
        rw [disable_shape_some w d e hr hce]
        by_cases ht : truthyAt d e = true
        · rw [if_pos ht]
          show getK (cleanupHooks d (delK (hooksObjD d) e)) K = getK d K ∧
            getK (hooksObjD (cleanupHooks d (delK (hooksObjD d) e))) k =
              getK (hooksObjD d) k
          exact cleanup_delK_frame d e K k hK (fun hh => hk (hh ▸ hev))
        · rw [if_neg ht]
          show getK (docOf w.sf) K = getK d K ∧
            getK (hooksObjD (docOf w.sf)) k = getK (hooksObjD d) k
          rw [hdoc]
          exact ⟨rfl, rfl⟩
  · intro e hev
    rw [remove_shape w d e hr]
    by_cases ht : truthyAt d e = true
    · rw [if_pos ht]
      show getK (cleanupHooks d (delK (hooksObjD d) e)) K = getK d K ∧
        getK (hooksObjD (cleanupHooks d (delK (hooksObjD d) e))) k =
          getK (hooksObjD d) k
      exact cleanup_delK_frame d e K k hK (fun hh => hk (hh ▸ hev))
    · rw [if_neg ht]
      show getK (docOf w.sf) K = getK d K ∧
        getK (hooksObjD (docOf w.sf)) k = getK (hooksObjD d) k
      rw [hdoc]
      exact ⟨rfl, rfl⟩

/-- C2 counterexample: with unrestricted arguments the claim fails —
`removeNotification` invoked with the unmanaged key `"myHook"` deletes
the entry `hooks["myHook"]` (and, it being the last one, the whole
`hooks` key), so the key is not byte-identical after the operation. -/
theorem C2_counterexample :
    removeNotification "myHook"
        ⟨.ok [("hooks", .obj [("myHook", .str "x")])], .absent⟩ =
      .ok ⟨.ok [], .absent⟩ ∧
    getK (hooksObjD ([] : Obj)) "myHook" ≠
      getK (hooksObjD [("hooks", JVal.obj [("myHook", JVal.str "x")])]) "myHook" := by
  refine ⟨rfl, fun hcontra => ?_⟩
  exact Option.noConfusion hcontra

/-- C2 witness: the remove-conjunct of `C2_unmanaged_frame` at a concrete
world holding the unmanaged top-level key `"other"` and the unmanaged
hooks entry `"custom"`. -/
theorem C2_witness :
    getK (docOf ((removeNotification "Stop"
        ⟨.ok [("other", .str "keep"),
              ("hooks", .obj [("custom", .str "c"), ("Stop", .arr [.str "s"])])],
         .absent⟩).world).sf) "other" =
      getK [("other", JVal.str "keep"),
            ("hooks", JVal.obj [("custom", JVal.str "c"), ("Stop", JVal.arr [JVal.str "s"])])]
        "other" ∧
    getK (hooksObjD (docOf ((removeNotification "Stop"
        ⟨.ok [("other", .str "keep"),
              ("hooks", .obj [("custom", .str "c"), ("Stop", .arr [.str "s"])])],
         .absent⟩).world).sf)) "custom" =
      getK (hooksObjD [("other", JVal.str "keep"),
            ("hooks", JVal.obj [("custom", JVal.str "c"), ("Stop", JVal.arr [JVal.str "s"])])])
        "custom" :=
  (C2_unmanaged_frame
      ⟨.ok [("other", .str "keep"),
            ("hooks", .obj [("custom", .str "c"), ("Stop", .arr [.str "s"])])],
       .absent⟩
      [("other", JVal.str "keep"),
       ("hooks", JVal.obj [("custom", JVal.str "c"), ("Stop", JVal.arr [JVal.str "s"])])]
      "other" "custom" rfl (by decide) (by decide) rfl).2.2.2 "Stop" (by decide)

/-! Status and cleanup lemmas. -/

theorem getStatus_eq (w : World) (d : Obj) (hr : readSettings w.sf = .ok d) :
    getStatus w =
      (if (configuredEvents d).isEmpty then
        (match getBackupConfig w.bf with
         | some backup => .ok ⟨.disabled, [], backup.map (fun q => q.1)⟩
         | none => .ok ⟨.notConfigured, [], []⟩)
      else
        .ok ⟨.enabled, (configuredEvents d).map (fun e => reportFor d e), []⟩) := by
  unfold getStatus
  rw [hr]

theorem truthyAt_cleanupHooks (d : Obj) (h : Obj) (e : String) :
    truthyAt (cleanupHooks d h) e = truthyOpt (getK h e) := by
  unfold cleanupHooks
  split
  · next he =>
    have hnil : h = [] := by simpa using he
    subst hnil
    unfold truthyAt
    rw [getK_delK_self]
    rfl
  · unfold truthyAt
    rw [getK_setK_self]

theorem hooks_obj_of_truthyAt {d : Obj} {e : String}
    (h : truthyAt d e = true) :
    ∃ m, getK d "hooks" = some (.obj m) ∧ m ≠ [] := by
  unfold truthyAt at h
  rcases hc : getK d "hooks" with _ | v
  · rw [hc] at h
    cases h
  · rw [hc] at h
    cases v with
    | obj m =>
      refine ⟨m, rfl, ?_⟩
      intro hnil
      subst hnil
      simp [getK, truthyOpt] at h
    | null => cases h
    | bool b => cases h
    | num n => cases h
    | str s => cases h
    | arr l => cases h

theorem cleanupHooks_hooks_ok {d h : Obj} {v : JVal}
    (hv : getK (cleanupHooks d h) "hooks" = some v) :
    ∃ m, v = .obj m ∧ m ≠ [] := by
  unfold cleanupHooks at hv
  split at hv
  · rw [getK_delK_self] at hv
    cases hv
  · next hne =>
    rw [getK_setK_self] at hv
    injection hv with hv'
    refine ⟨h, hv'.symm, ?_⟩
    intro hnil
    subst hnil
    exact hne rfl

/-- C4 (amended): when `hooks[event]` is actually present (truthy) — so
`removeNotification` performs the removal rather than its not-found
no-op — the backup file is absent afterwards and `getStatus` never
reports the event as enabled or as recoverable from backup.  Without
that proviso the claim fails: the not-found no-op returns before the
backup unlink (see the counterexample). -/
theorem C4_remove_finality (w : World) (d : Obj) (e : String)
    (hr : readSettings w.sf = .ok d) (hev : e ∈ eventNames)
    (ht : truthyAt d e = true) :
    removeNotification e w =
      .ok ⟨.ok (cleanupHooks d (delK (hooksObjD d) e)), .absent⟩ ∧
    (⟨SFile.ok (cleanupHooks d (delK (hooksObjD d) e)), BFile.absent⟩ : World).bf =
      .absent ∧
    ∃ r, getStatus ⟨.ok (cleanupHooks d (delK (hooksObjD d) e)), .absent⟩ = .ok r ∧
      (∀ er ∈ r.events, er.event ≠ e) ∧ e ∉ r.backupEvents := by
  refine ⟨?_, rfl, ?_⟩
  · rw [remove_shape w d e hr, if_pos ht]
  · set d' := cleanupHooks d (delK (hooksObjD d) e) with hd'
    have hr' : readSettings (SFile.ok d') = .ok d' := rfl
    have hne : ∀ e' ∈ configuredEvents d', e' ≠ e := by
      intro e' he' heq
      subst heq
      have := List.mem_filter.mp he'
      have h2 : truthyAt d' e' = true := by simpa using this.2
      rw [hd', truthyAt_cleanupHooks, getK_delK_self] at h2
      cases h2
    rw [show getStatus ⟨.ok d', .absent⟩ =
        (if (configuredEvents d').isEmpty then
          Except.ok ⟨.notConfigured, [], []⟩
        else
          Except.ok ⟨.enabled, (configuredEvents d').map (fun e => reportFor d' e), []⟩)
      from by
        rw [getStatus_eq ⟨.ok d', .absent⟩ d' hr']
        rfl]
    by_cases hce : (configuredEvents d').isEmpty = true
    · rw [if_pos hce]
      refine ⟨_, rfl, ?_, ?_⟩
      · intro er her
        simp at her
      · simp
    · rw [if_neg hce]
      refine ⟨_, rfl, ?_, ?_⟩
      · intro er her
        rcases List.mem_map.mp her with ⟨e', he', heq⟩
        rw [← heq]
        exact hne e' he'
      · simp

/-- C4 counterexample: with `hooks[event]` absent, `removeNotification`
returns before unlinking the backup; a subsequent `getStatus` then
reports the event as recoverable from the still-existing backup file,
falsifying the unconditional claim. -/
theorem C4_counterexample :
    removeNotification "Stop" ⟨.ok [], .ok [("Stop", .arr [.str "x"])]⟩ =
      .ok ⟨.ok [], .ok [("Stop", .arr [.str "x"])]⟩ ∧
    getStatus ⟨.ok [], .ok [("Stop", .arr [.str "x"])]⟩ =
      .ok ⟨.disabled, [], ["Stop"]⟩ ∧
    "Stop" ∈ (["Stop"] : List String) ∧
    BFile.ok [("Stop", JVal.arr [.str "x"])] ≠ BFile.absent := by
  refine ⟨rfl, rfl, by decide, fun hcontra => ?_⟩
  cases hcontra

/-- C4 witness: `C4_remove_finality` at a concrete configured world. -/
theorem C4_witness :
    removeNotification "Stop"
        ⟨.ok [("hooks", .obj [("Stop", .arr [.str "x"])])],
         .ok [("Stop", .arr [.str "x"])]⟩ =
      .ok ⟨.ok (cleanupHooks [("hooks", .obj [("Stop", .arr [.str "x"])])]
              (delK (hooksObjD [("hooks", .obj [("Stop", .arr [.str "x"])])]) "Stop")),
           .absent⟩ ∧
    (⟨SFile.ok (cleanupHooks [("hooks", .obj [("Stop", .arr [.str "x"])])]
        (delK (hooksObjD [("hooks", .obj [("Stop", .arr [.str "x"])])]) "Stop")),
      BFile.absent⟩ : World).bf = .absent ∧
    ∃ r, getStatus ⟨.ok (cleanupHooks [("hooks", .obj [("Stop", .arr [.str "x"])])]
        (delK (hooksObjD [("hooks", .obj [("Stop", .arr [.str "x"])])]) "Stop")),
        .absent⟩ = .ok r ∧
      (∀ er ∈ r.events, er.event ≠ "Stop") ∧ "Stop" ∉ r.backupEvents :=
  C4_remove_finality
    ⟨.ok [("hooks", .obj [("Stop", .arr [.str "x"])])],
     .ok [("Stop", .arr [.str "x"])]⟩
    [("hooks", .obj [("Stop", .arr [.str "x"])])] "Stop" rfl (by decide) rfl

/-- C5 (amended): `disableNotifications` and `removeNotification` never
persist an empty `hooks` mapping — in any document they write, the
`hooks` key, when present, holds a non-empty object (emptiness being
measured by the mapping having no keys, which is what the code tests;
an entry whose HookGroup sequence is `[]` still counts as a key).
`enableNotifications` performs no such cleanup and can serialize
`hooks` as `{}` (see the counterexample), and `setupNotification`
always leaves the configured event's non-empty entry in place. -/
theorem C5_empty_hooks_cleanup (w : World) (d : Obj)
    (hr : readSettings w.sf = .ok d) :
    (∀ e w', truthyAt d e = true → removeNotification e w = .ok w' →
      ∀ doc v, w'.sf = .ok doc → getK doc "hooks" = some v →
        ∃ m, v = .obj m ∧ m ≠ []) ∧
    (∀ evO w', (configuredEvents d).isEmpty = false →
      disableNotifications evO w = .ok w' →
      ∀ doc v, w'.sf = .ok doc → getK doc "hooks" = some v →
        ∃ m, v = .obj m ∧ m ≠ []) := by
  constructor
  · intro e w' ht hrem doc v hsf hv
    rw [remove_shape w d e hr, if_pos ht] at hrem
    cases hrem
    cases hsf
    exact cleanupHooks_hooks_ok hv
  · intro evO w' hce hdis doc v hsf hv
    have hde : ∃ m, getK d "hooks" = some (.obj m) ∧ m ≠ [] := by
      have hne : configuredEvents d ≠ [] := by
        intro hnil
        rw [hnil] at hce
        cases hce
      rcases List.exists_mem_of_ne_nil _ hne with ⟨e, he⟩
      have hmf := List.mem_filter.mp he
      exact hooks_obj_of_truthyAt (by simpa using hmf.2)
    cases evO with
    | none =>
      rw [disable_shape_none w d hr hce] at hdis
      cases hdis
      cases hsf
      exact cleanupHooks_hooks_ok hv
    | some e =>
      rw [disable_shape_some w d e hr hce] at hdis
      by_cases ht : truthyAt d e = true
      · rw [if_pos ht] at hdis
        cases hdis
        cases hsf
        exact cleanupHooks_hooks_ok hv
      · rw [if_neg ht] at hdis
        cases hdis
        rcases hde with ⟨m, hm, hmne⟩
        have : docOf w.sf = d := docOf_of_read hr
        rcases hw : w.sf with _ | dd
        · rw [hw] at hsf
          cases hsf
        · rw [hw] at hsf
          cases hsf
          have hdd : doc = d := by
            rw [hw] at hr
            cases hr
            rfl
          subst hdd
          rw [hm] at hv
          cases hv
          exact ⟨m, rfl, hmne⟩
        · rw [hw] at hr
          cases hr

/-- C5 counterexample: `enableNotifications` restores an empty backup
into an empty settings document and persists `{ "hooks": {} }` — the
`hooks` key is present although no event maps to anything, and the
empty mapping is serialized as `{}`, falsifying the claimed invariant
for "every operation". -/
theorem C5_counterexample :
    enableNotifications none ⟨.ok [], .ok []⟩ =
      .ok ⟨.ok [("hooks", .obj [])], .ok []⟩ ∧
    getK [("hooks", JVal.obj [])] "hooks" = some (.obj []) := ⟨rfl, rfl⟩

/-- C5 witness: the remove-conjunct of `C5_empty_hooks_cleanup` at a
document where another entry survives the removal. -/
theorem C5_witness :
    ∃ m, JVal.obj [("Other", JVal.str "y")] = JVal.obj m ∧ m ≠ [] :=
  (C5_empty_hooks_cleanup
      ⟨.ok [("hooks", .obj [("Stop", .arr [.str "x"]), ("Other", .str "y")])],
       .absent⟩
      [("hooks", .obj [("Stop", .arr [.str "x"]), ("Other", .str "y")])]
      rfl).1 "Stop"
    ⟨.ok [("hooks", .obj [("Other", .str "y")])], .absent⟩ rfl rfl
    [("hooks", .obj [("Other", .str "y")])] (.obj [("Other", .str "y")]) rfl rfl

/-- C8 (amended): `getStatus` reports ENABLED exactly when some managed
event passes the hooks filter (under the data model, a managed entry is
a HookGroup array, so passing the filter is exactly being present);
otherwise it reports DISABLED exactly when the backup file exists and
parses — including when it parses to the EMPTY object `{}`, contrary to
the claim's "non-empty" — listing the backup's event names; in all
remaining cases it reports NOT CONFIGURED. -/
theorem C8_status_kinds (w : World) (d : Obj) (r : StatusReport)
    (hr : readSettings w.sf = .ok d)
    (hs : getStatus w = .ok r) :
    (r.kind = .enabled ↔ ∃ e ∈ eventNames, truthyAt d e = true) ∧
    (r.kind = .disabled ↔
      ((∀ e ∈ eventNames, truthyAt d e = false) ∧
        ∃ b, getBackupConfig w.bf = some b)) ∧
    (r.kind = .notConfigured ↔
      ((∀ e ∈ eventNames, truthyAt d e = false) ∧
        getBackupConfig w.bf = none)) ∧
    (∀ b, getBackupConfig w.bf = some b →
      (∀ e ∈ eventNames, truthyAt d e = false) →
      r.backupEvents = b.map Prod.fst) := by
  rw [getStatus_eq w d hr] at hs
  by_cases hce : (configuredEvents d).isEmpty = true
  · rw [if_pos hce] at hs
    have hall : ∀ e ∈ eventNames, truthyAt d e = false := by
      intro e he
      have hnil : configuredEvents d = [] := by simpa using hce
      by_contra hne
      rw [Bool.not_eq_false] at hne
      have hmem : e ∈ configuredEvents d :=
        List.mem_filter.mpr ⟨he, by simpa using hne⟩
      rw [hnil] at hmem
      exact absurd hmem (List.not_mem_nil e)
    rcases hb : getBackupConfig w.bf with _ | b
    · rw [hb] at hs
      cases hs
      refine ⟨?_, ?_, ?_, ?_⟩
      · constructor
        · intro h
          cases h
        · rintro ⟨e, he, ht⟩
          rw [hall e he] at ht
          cases ht
      · constructor
        · intro h
          cases h
        · rintro ⟨-, b, hb2⟩
          cases hb2
      · exact ⟨fun _ => ⟨hall, rfl⟩, fun _ => rfl⟩
      · intro b hb2 _
        cases hb2
    · rw [hb] at hs
      cases hs
      refine ⟨?_, ?_, ?_, ?_⟩
      · constructor
        · intro h
          cases h
        · rintro ⟨e, he, ht⟩
          rw [hall e he] at ht
          cases ht
      · exact ⟨fun _ => ⟨hall, b, rfl⟩, fun _ => rfl⟩
      · constructor
        · intro h
          cases h
        · rintro ⟨-, hnone⟩
          cases hnone
      · intro b' hb2 _
        cases hb2
        rfl
  · rw [if_neg hce] at hs
    cases hs
    have hex : ∃ e ∈ eventNames, truthyAt d e = true := by
      have hne : configuredEvents d ≠ [] := by
        intro hnil
        rw [hnil] at hce
        exact hce rfl
      rcases List.exists_mem_of_ne_nil _ hne with ⟨e, he⟩
      have hmf := List.mem_filter.mp he
      exact ⟨e, hmf.1, by simpa using hmf.2⟩
    refine ⟨?_, ?_, ?_, ?_⟩
    · exact ⟨fun _ => hex, fun _ => rfl⟩
    · constructor
      · intro h
        cases h
      · rintro ⟨hall, -⟩
        rcases hex with ⟨e, he, ht⟩
        rw [hall e he] at ht
        cases ht
    · constructor
      · intro h
        cases h
      · rintro ⟨hall, -⟩
        rcases hex with ⟨e, he, ht⟩
        rw [hall e he] at ht
        cases ht
    · intro b hb2 hall
      rcases hex with ⟨e, he, ht⟩
      rw [hall e he] at ht
      cases ht

/-- C8 counterexample: the settings document has no managed event and
the backup file parses to the EMPTY object, yet `getStatus` reports
DISABLED (the `else if (backup)` test is truthy for `{}`), where the
claim — requiring a non-empty backup for DISABLED — demands NOT
CONFIGURED. -/
theorem C8_counterexample :
    getStatus ⟨.ok [], .ok []⟩ = .ok ⟨.disabled, [], []⟩ ∧
    StatusKind.disabled ≠ StatusKind.notConfigured := by
  refine ⟨rfl, fun hcontra => ?_⟩
  cases hcontra

/-- C8 witness: `C8_status_kinds` at a world with no hooks and no
backup. -/
theorem C8_witness :
    ((StatusReport.mk .notConfigured [] []).kind = .enabled ↔
      ∃ e ∈ eventNames, truthyAt ([] : Obj) e = true) ∧
    ((StatusReport.mk .notConfigured [] []).kind = .disabled ↔
      ((∀ e ∈ eventNames, truthyAt ([] : Obj) e = false) ∧
        ∃ b, getBackupConfig BFile.absent = some b)) ∧
    ((StatusReport.mk .notConfigured [] []).kind = .notConfigured ↔
      ((∀ e ∈ eventNames, truthyAt ([] : Obj) e = false) ∧
        getBackupConfig BFile.absent = none)) ∧
    (∀ b, getBackupConfig BFile.absent = some b →
      (∀ e ∈ eventNames, truthyAt ([] : Obj) e = false) →
      (StatusReport.mk .notConfigured [] []).backupEvents = b.map Prod.fst) :=
  C8_status_kinds ⟨.missing, .absent⟩ [] ⟨.notConfigured, [], []⟩ rfl rfl

theorem bfAfterBackup_event_free {d : Obj} {bf : BFile} {event : String}
    (hm : event ∉ eventNames)
    (hbf : ∀ m, bf = .ok m → event ∉ m.map Prod.fst) :
    ∀ m, bfAfterBackup d bf = .ok m → event ∉ m.map Prod.fst := by
  intro m hmk
  unfold bfAfterBackup at hmk
  split at hmk
  · exact hbf m hmk
  · cases hmk
    intro hmem
    exact hm (keys_ccOfL_sub hmem)

/-- C10: `setupNotification` does not validate its event argument — for
any string outside the managed event set it still writes
`hooks[event] = [{ hooks: entries }]`; afterwards `backupCurrentConfig`
and `disableNotifications` (no event argument) ignore the entry,
leaving it untouched in the settings and never copying it into the
backup. -/
theorem C10_setup_no_validation (pf : Platform) (fsEx : String → Bool)
    (cwd : String) (event : String) (sp : Option String) (nf : Bool)
    (w w' : World) (d : Obj) (P : String)
    (hr : readSettings w.sf = .ok d)
    (hm : event ∉ eventNames)
    (hres : resolveSound pf fsEx cwd sp = .ok P)
    (hsetup : setupNotification pf fsEx cwd event sp nf w = .ok w')
    (hbf : ∀ m, w.bf = .ok m → event ∉ m.map Prod.fst) :
    (∃ d', w'.sf = .ok d' ∧
      getK (hooksObjD d') event = some (setupHookVal pf P nf)) ∧
    (∀ m, w'.bf = .ok m → event ∉ m.map Prod.fst) ∧
    (∀ b w₂, backupCurrentConfig w' = .ok (b, w₂) →
      ∀ m, w₂.bf = .ok m → event ∉ m.map Prod.fst) ∧
    (∀ w₂, disableNotifications none w' = .ok w₂ →
      (∃ d₂, w₂.sf = .ok d₂ ∧
        getK (hooksObjD d₂) event = some (setupHookVal pf P nf)) ∧
      (∀ m, w₂.bf = .ok m → event ∉ m.map Prod.fst)) := by
  rw [setup_shape pf fsEx cwd event sp nf w d hr, hres] at hsetup
  dsimp only at hsetup
  by_cases hfs : fsEx P = true
  · rw [if_pos hfs] at hsetup
    cases hsetup
    set D := writeHooksDoc d event (setupHookVal pf P nf) with hD
    have hrd : readSettings (SFile.ok D) = .ok D := rfl
    have hDev : getK (hooksObjD D) event = some (setupHookVal pf P nf) := by
      rw [hD]
      unfold writeHooksDoc
      rw [hooksObjD_setHooks, getK_setK_self]
    have hbf1 : ∀ m, bfAfterBackup d w.bf = .ok m → event ∉ m.map Prod.fst :=
      bfAfterBackup_event_free hm hbf
    refine ⟨⟨D, rfl, hDev⟩, hbf1, ?_, ?_⟩
    · intro b w₂ hbc m hmk
      rw [backupCurrentConfig_eq ⟨SFile.ok D, bfAfterBackup d w.bf⟩ D hrd] at hbc
      split at hbc
      · cases hbc
        exact hbf1 m hmk
      · cases hbc
        cases hmk
        intro hmem
        exact hm (keys_ccOfL_sub hmem)
    · intro w₂ hdis
      by_cases hce : (configuredEvents D).isEmpty = true
      · rw [disable_noop none ⟨SFile.ok D, bfAfterBackup d w.bf⟩ D hrd hce] at hdis
        cases hdis
        exact ⟨⟨D, rfl, hDev⟩, hbf1⟩
      · rw [Bool.not_eq_true] at hce
        rw [disable_shape_none ⟨SFile.ok D, bfAfterBackup d w.bf⟩ D hrd hce] at hdis
        cases hdis
        constructor
        · refine ⟨_, rfl, ?_⟩
          rw [hooksObjD_cleanupHooks, getK_foldl_delK,
            if_neg (not_mem_configured hm), hDev]
        · exact bfAfterBackup_event_free hm hbf1
  · rw [if_neg hfs] at hsetup
    cases hsetup

/-- C10 witness: `C10_setup_no_validation` at the unmanaged event name
`"MyEvent"`, the platform default sound, and an empty world. -/
theorem C10_witness :
    (∃ d', (⟨SFile.ok (writeHooksDoc [] "MyEvent"
        (setupHookVal .darwin "/System/Library/Sounds/Glass.aiff" false)),
        BFile.absent⟩ : World).sf = .ok d' ∧
      getK (hooksObjD d') "MyEvent" =
        some (setupHookVal .darwin "/System/Library/Sounds/Glass.aiff" false)) ∧
    (∀ m, (⟨SFile.ok (writeHooksDoc [] "MyEvent"
        (setupHookVal .darwin "/System/Library/Sounds/Glass.aiff" false)),
        BFile.absent⟩ : World).bf = .ok m → "MyEvent" ∉ m.map Prod.fst) ∧
    (∀ b w₂, backupCurrentConfig ⟨SFile.ok (writeHooksDoc [] "MyEvent"
        (setupHookVal .darwin "/System/Library/Sounds/Glass.aiff" false)),
        BFile.absent⟩ = .ok (b, w₂) →
      ∀ m, w₂.bf = .ok m → "MyEvent" ∉ m.map Prod.fst) ∧
    (∀ w₂, disableNotifications none ⟨SFile.ok (writeHooksDoc [] "MyEvent"
        (setupHookVal .darwin "/System/Library/Sounds/Glass.aiff" false)),
        BFile.absent⟩ = .ok w₂ →
      (∃ d₂, w₂.sf = .ok d₂ ∧
        getK (hooksObjD d₂) "MyEvent" =
          some (setupHookVal .darwin "/System/Library/Sounds/Glass.aiff" false)) ∧
      (∀ m, w₂.bf = .ok m → "MyEvent" ∉ m.map Prod.fst)) :=
  C10_setup_no_validation .darwin (fun _ => true) "/" "MyEvent" none false
    ⟨.missing, .absent⟩
    ⟨SFile.ok (writeHooksDoc [] "MyEvent"
        (setupHookVal .darwin "/System/Library/Sounds/Glass.aiff" false)),
     BFile.absent⟩
    [] "/System/Library/Sounds/Glass.aiff" rfl (by decide) rfl rfl
    (fun m h => nomatch h)

theorem truthyAt_eq (d : Obj) (e : String) :
    truthyAt d e = truthyOpt (getK (hooksObjD d) e) := by
  unfold truthyAt hooksObjD
  rcases hc : getK d "hooks" with _ | v
  · rfl
  · cases v <;> rfl

theorem ensureHooks_of_obj {s m : Obj}
    (h : getK s "hooks" = some (.obj m)) : ensureHooks s = s := by
  unfold ensureHooks
  rw [h]
  simp [truthy]

theorem configured_empty_of_all {d : Obj}
    (h : ∀ e ∈ eventNames, truthyAt d e = false) :
    (configuredEvents d).isEmpty = true := by
  have : configuredEvents d = [] := by
    unfold configuredEvents
    rw [List.filter_eq_nil_iff]
    intro e he
    rw [h e he]
    simp
  rw [this]
  rfl

theorem enableAllDoc_idem (d b : Obj) (hn : (b.map Prod.fst).Nodup) :
    enableAllDoc (enableAllDoc d b) b = enableAllDoc d b := by
  unfold enableAllDoc
  rw [ensureHooks_of_obj (getK_setK_self (ensureHooks d) "hooks"
      (.obj (objAssign (hooksObjD (ensureHooks d)) b)))]
  rw [hooksObjD_setHooks]
  rw [objAssign_fix _ (fun q hq => getK_objAssign_mem _ hn hq)]
  rw [setK_idem]

/-- Rewriting the same event entry with the same value a second time
produces the identical settings document. -/
theorem writeHooksDoc_idem (d : Obj) (ev : String) (v : JVal) :
    writeHooksDoc (writeHooksDoc d ev v) ev v = writeHooksDoc d ev v := by
  unfold writeHooksDoc
  rw [ensureHooks_of_obj (getK_setK_self (ensureHooks d) "hooks"
      (.obj (setK (hooksObjD (ensureHooks d)) ev v)))]
  rw [hooksObjD_setHooks]
  rw [setK_idem, setK_idem]

/-- C7: repeated `enableNotifications` calls with any event argument
(a specific event or none) against the same backup rewrite the very
document the first call wrote, and running `disableNotifications` with
no event twice in a row, or `enableNotifications` twice in a row,
leaves the settings and backup documents after the second call
identical to their state after the first call (the second call is a
fixed point). -/
theorem C7_idempotence (w v w₁ v₁ : World) (evO : Option String)
    (hwf : ∀ d, readSettings v.sf = .ok d → hooksIsObj d = true)
    (hbk : ∀ b, getBackupConfig v.bf = some b → (b.map Prod.fst).Nodup)
    (hd : disableNotifications none w = .ok w₁)
    (he : enableNotifications evO v = .ok v₁) :
    disableNotifications none w₁ = .ok w₁ ∧
    enableNotifications evO v₁ = .ok v₁ := by
  constructor
  · rcases hrw : readSettings w.sf with e | d
    · have herr : disableNotifications none w = .err e w := by
        unfold disableNotifications
        rw [hrw]
      rw [herr] at hd
      cases hd
    · by_cases hce : (configuredEvents d).isEmpty = true
      · rw [disable_noop none w d hrw hce] at hd
        cases hd
        exact disable_noop none w d hrw hce
      · rw [Bool.not_eq_true] at hce
        rw [disable_shape_none w d hrw hce] at hd
        cases hd
        apply disable_noop none
          ⟨SFile.ok (cleanupHooks d ((configuredEvents d).foldl delK (hooksObjD d))),
           bfAfterBackup d w.bf⟩
          (cleanupHooks d ((configuredEvents d).foldl delK (hooksObjD d))) rfl
        apply configured_empty_of_all
        intro e he
        rw [truthyAt_cleanupHooks, getK_foldl_delK]
        by_cases hin : e ∈ configuredEvents d
        · rw [if_pos hin]
          rfl
        · rw [if_neg hin]
          have : truthyAt d e = false := by
            by_contra hne
            rw [Bool.not_eq_false] at hne
            exact hin (List.mem_filter.mpr ⟨he, by simpa using hne⟩)
          rw [truthyAt_eq] at this
          exact this
  · rcases hb : getBackupConfig v.bf with _ | b
    · have hnone : enableNotifications evO v = .ok v := by
        unfold enableNotifications
        rw [hb]
      rw [hnone] at he
      cases he
      exact hnone
    · rcases hrv : readSettings v.sf with e | d
      · have herr : enableNotifications evO v = .err e v := by
          unfold enableNotifications
          rw [hb, hrv]
        rw [herr] at he
        cases he
      · cases evO with
        | none =>
          rw [enable_shape_none v b d hb hrv] at he
          cases he
          have hstep := enable_shape_none
            ⟨SFile.ok (enableAllDoc d b), v.bf⟩ b (enableAllDoc d b) hb rfl
          rw [hstep, enableAllDoc_idem d b (hbk b hb)]
        | some ev =>
          rw [enable_shape_some v b d ev hb hrv] at he
          by_cases ht : truthyOpt (getK b ev) = true
          · rw [if_pos ht] at he
            cases he
            have hstep := enable_shape_some
              ⟨SFile.ok (writeHooksDoc d ev ((getK b ev).getD .null)), v.bf⟩
              b (writeHooksDoc d ev ((getK b ev).getD .null)) ev hb rfl
            rw [hstep, if_pos ht, writeHooksDoc_idem]
          · rw [if_neg ht] at he
            cases he
            rw [enable_shape_some v b d ev hb hrv, if_neg ht]

/-- C7 witness: `C7_idempotence` with the specific event argument
`"Stop"` at a concrete configured world and the matching post-disable
world. -/
theorem C7_witness :
    disableNotifications none ⟨.ok [], .ok [("Stop", .arr [.str "x"])]⟩ =
      .ok ⟨.ok [], .ok [("Stop", .arr [.str "x"])]⟩ ∧
    enableNotifications (some "Stop")
        ⟨.ok [("hooks", .obj [("Stop", .arr [.str "x"])])],
         .ok [("Stop", .arr [.str "x"])]⟩ =
      .ok ⟨.ok [("hooks", .obj [("Stop", .arr [.str "x"])])],
           .ok [("Stop", .arr [.str "x"])]⟩ :=
  C7_idempotence
    ⟨.ok [("hooks", .obj [("Stop", .arr [.str "x"])])], .absent⟩
    ⟨.ok [], .ok [("Stop", .arr [.str "x"])]⟩
    ⟨.ok [], .ok [("Stop", .arr [.str "x"])]⟩
    ⟨.ok [("hooks", .obj [("Stop", .arr [.str "x"])])],
     .ok [("Stop", .arr [.str "x"])]⟩
    (some "Stop")
    (fun d h => by cases h; rfl)
    (fun b h => by cases h; decide)
    rfl rfl

theorem getK_mem {o : Obj} {k : String} {v : JVal}
    (h : getK o k = some v) : (k, v) ∈ o := by
  induction o with
  | nil => cases h
  | cons q rest ih =>
    obtain ⟨k₁, v₁⟩ := q
    by_cases hk : k₁ = k
    · subst hk
      simp only [getK, eq_self_iff_true, if_true, Option.some.injEq] at h
      rw [← h]
      exact List.mem_cons_self _ _
    · simp only [getK, if_neg hk] at h
      exact List.mem_cons_of_mem _ (ih h)

theorem getK_none_iff {o : Obj} {k : String} :
    getK o k = none ↔ k ∉ o.map Prod.fst := by
  induction o with
  | nil => simp [getK]
  | cons q rest ih =>
    obtain ⟨k₁, v₁⟩ := q
    by_cases hk : k₁ = k
    · subst hk
      simp [getK]
    · simp only [getK, if_neg hk, List.map_cons, List.mem_cons, not_or, ih]
      constructor
      · intro hnone
        exact ⟨fun hh => hk hh.symm, hnone⟩
      · intro hand
        exact hand.2

theorem isEmpty_false_of_ne_nil {α : Type} {l : List α} (h : l ≠ []) :
    l.isEmpty = false := by
  cases l with
  | nil => exact absurd rfl h
  | cons a t => rfl

theorem hooksObjD_of_obj {d h : Obj}
    (hh : getK d "hooks" = some (.obj h)) : hooksObjD d = h := by
  unfold hooksObjD
  rw [hh]

/-- C1: for every settings document whose hooks mapping contains at
least one managed event (per the data model, an event entry is a
HookGroup array), `disableNotifications` with no event followed by
`enableNotifications` with no event restores the hooks entry of every
managed event to its pre-disable value and leaves unmanaged top-level
keys and unmanaged hooks entries unchanged throughout both operations. -/
theorem C1_disable_enable_roundtrip (w : World) (d h : Obj) (e₀ : String)
    (gs : List JVal)
    (hr : readSettings w.sf = .ok d)
    (hh : getK d "hooks" = some (.obj h))
    (he₀ : e₀ ∈ eventNames)
    (hg : getK h e₀ = some (.arr gs)) :
    ∃ w₁ w₂,
      disableNotifications none w = .ok w₁ ∧
      enableNotifications none w₁ = .ok w₂ ∧
      (∀ e ∈ eventNames, getK (hooksObjD (docOf w₂.sf)) e = getK h e) ∧
      (∀ k, k ∉ eventNames →
        getK (hooksObjD (docOf w₁.sf)) k = getK h k ∧
        getK (hooksObjD (docOf w₂.sf)) k = getK h k) ∧
      (∀ K, K ≠ "hooks" →
        getK (docOf w₁.sf) K = getK d K ∧ getK (docOf w₂.sf) K = getK d K) := by
  have hobj : hooksObjD d = h := hooksObjD_of_obj hh
  have ht₀ : truthyAt d e₀ = true := by
    rw [truthyAt_eq, hobj, hg]
    rfl
  have hmem₀ : e₀ ∈ configuredEvents d :=
    List.mem_filter.mpr ⟨he₀, by simpa using ht₀⟩
  have hce : (configuredEvents d).isEmpty = false :=
    isEmpty_false_of_ne_nil (List.ne_nil_of_mem hmem₀)
  have hcc₀ : getK (ccOf h) e₀ = some (.arr gs) := by
    unfold ccOf
    rw [getK_ccOfL eventNames h e₀ eventNames_nodup,
      if_pos ⟨he₀, by rw [hg]; rfl⟩, hg]
  have hccne : ccOf h ≠ [] := by
    intro hnil
    rw [hnil] at hcc₀
    cases hcc₀
  have hbfa : bfAfterBackup d w.bf = .ok (ccOf h) := by
    unfold bfAfterBackup
    rw [hobj]
    rw [if_neg (fun hc =>
      absurd ((isEmpty_false_of_ne_nil hccne).symm.trans hc) Bool.false_ne_true)]
  have hdis := disable_shape_none w d hr hce
  rw [hobj, hbfa] at hdis
  have hen := enable_shape_none
    ⟨SFile.ok (cleanupHooks d ((configuredEvents d).foldl delK h)), .ok (ccOf h)⟩
    (ccOf h) (cleanupHooks d ((configuredEvents d).foldl delK h)) rfl rfl
  have hTE : hooksObjD (enableAllDoc
      (cleanupHooks d ((configuredEvents d).foldl delK h)) (ccOf h)) =
    objAssign (hooksObjD (cleanupHooks d ((configuredEvents d).foldl delK h)))
      (ccOf h) := by
    unfold enableAllDoc
    rw [hooksObjD_setHooks, hooksObjD_ensureHooks]
  refine ⟨_, _, hdis, hen, ?_, ?_, ?_⟩
  · intro e he
    show getK (hooksObjD (enableAllDoc
        (cleanupHooks d ((configuredEvents d).foldl delK h)) (ccOf h))) e =
      getK h e
    rw [hTE]
    by_cases htr : truthyOpt (getK h e) = true
    · rcases hv : getK h e with _ | v
      · rw [hv] at htr
        cases htr
      · have hcce : getK (ccOf h) e = some v := by
          unfold ccOf
          rw [getK_ccOfL eventNames h e eventNames_nodup, if_pos ⟨he, htr⟩, hv]
        exact getK_objAssign_mem _ (nodup_keys_ccOfL h eventNames_nodup)
          (getK_mem hcce)
    · have hcce : getK (ccOf h) e = none := by
        unfold ccOf
        rw [getK_ccOfL eventNames h e eventNames_nodup,
          if_neg (fun hc => htr hc.2)]
      have hnotk : e ∉ (ccOf h).map Prod.fst := getK_none_iff.mp hcce
      rw [getK_objAssign_not_mem _ hnotk, hooksObjD_cleanupHooks,
        getK_foldl_delK]
      have hnc : e ∉ configuredEvents d := by
        intro hin
        have hp := (List.mem_filter.mp hin).2
        have : truthyAt d e = true := by simpa using hp
        rw [truthyAt_eq, hobj] at this
        exact htr this
      rw [if_neg hnc]
  · intro k hk
    constructor
    · show getK (hooksObjD (cleanupHooks d ((configuredEvents d).foldl delK h))) k =
        getK h k
      rw [hooksObjD_cleanupHooks, getK_foldl_delK,
        if_neg (not_mem_configured hk)]
    · show getK (hooksObjD (enableAllDoc
          (cleanupHooks d ((configuredEvents d).foldl delK h)) (ccOf h))) k =
        getK h k
      rw [hTE]
      have hnotk : k ∉ (ccOf h).map Prod.fst :=
        fun hmem => hk (keys_ccOfL_sub hmem)
      rw [getK_objAssign_not_mem _ hnotk, hooksObjD_cleanupHooks,
        getK_foldl_delK, if_neg (not_mem_configured hk)]
  · intro K hK
    constructor
    · show getK (cleanupHooks d ((configuredEvents d).foldl delK h)) K = getK d K
      exact getK_cleanupHooks_ne hK
    · show getK (enableAllDoc
          (cleanupHooks d ((configuredEvents d).foldl delK h)) (ccOf h)) K =
        getK d K
      unfold enableAllDoc
      rw [getK_setK_ne _ _ (fun hh2 => hK hh2.symm), getK_ensureHooks_ne hK,
        getK_cleanupHooks_ne hK]

/-- C1 witness: `C1_disable_enable_roundtrip` at a concrete document
with one managed event, one unmanaged hooks entry and one unmanaged
top-level key. -/
theorem C1_witness :
    ∃ w₁ w₂,
      disableNotifications none
        ⟨.ok [("other", .str "p"),
              ("hooks", .obj [("custom", .str "c"), ("Stop", .arr [.str "x"])])],
         .absent⟩ = .ok w₁ ∧
      enableNotifications none w₁ = .ok w₂ ∧
      (∀ e ∈ eventNames, getK (hooksObjD (docOf w₂.sf)) e =
        getK [("custom", JVal.str "c"), ("Stop", JVal.arr [JVal.str "x"])] e) ∧
      (∀ k, k ∉ eventNames →
        getK (hooksObjD (docOf w₁.sf)) k =
          getK [("custom", JVal.str "c"), ("Stop", JVal.arr [JVal.str "x"])] k ∧
        getK (hooksObjD (docOf w₂.sf)) k =
          getK [("custom", JVal.str "c"), ("Stop", JVal.arr [JVal.str "x"])] k) ∧
      (∀ K, K ≠ "hooks" →
        getK (docOf w₁.sf) K =
          getK [("other", JVal.str "p"),
                ("hooks", JVal.obj [("custom", JVal.str "c"),
                                    ("Stop", JVal.arr [JVal.str "x"])])] K ∧
        getK (docOf w₂.sf) K =
          getK [("other", JVal.str "p"),
                ("hooks", JVal.obj [("custom", JVal.str "c"),
                                    ("Stop", JVal.arr [JVal.str "x"])])] K) :=
  C1_disable_enable_roundtrip
    ⟨.ok [("other", .str "p"),
          ("hooks", .obj [("custom", .str "c"), ("Stop", .arr [.str "x"])])],
     .absent⟩
    [("other", JVal.str "p"),
     ("hooks", JVal.obj [("custom", JVal.str "c"), ("Stop", JVal.arr [JVal.str "x"])])]
    [("custom", JVal.str "c"), ("Stop", JVal.arr [JVal.str "x"])]
    "Stop" [JVal.str "x"] rfl rfl (by decide) rfl

/-! Lemmas about the sound-path regex and the marker scans. -/

theorem isPrefixOf_append_left (l r : List Char) :
    l.isPrefixOf (l ++ r) = true := by
  induction l with
  | nil => simp [List.isPrefixOf]
  | cons a l ih => simp [List.isPrefixOf, ih]

theorem hasSub_of_prefix {hay pat : List Char}
    (h : pat.isPrefixOf hay = true) : hasSub hay pat = true := by
  unfold hasSub
  rw [if_pos h]

theorem extAlts_base :
    ∀ ext ∈ extAlts, matchRest ('.' :: ext) = some ('.' :: ext) := by decide

theorem matchRest_full (ext : List Char)
    (hbase : matchRest ('.' :: ext) = some ('.' :: ext)) :
    ∀ mid : List Char, (∀ c ∈ mid, isWsChar c = false) →
    matchRest (mid ++ '.' :: ext) = some (mid ++ '.' :: ext) := by
  intro mid
  induction mid with
  | nil =>
    intro _
    simpa using hbase
  | cons c mid ih =>
    intro hmid
    have hc : isWsChar c = false := hmid c (by simp)
    rw [List.cons_append]
    show matchRest (c :: (mid ++ '.' :: ext)) = some (c :: (mid ++ '.' :: ext))
    rw [show matchRest (c :: (mid ++ '.' :: ext)) =
        (if isWsChar c = true then none
         else
           match matchRest (mid ++ '.' :: ext) with
           | some t => some (c :: t)
           | none => tryTail (c :: (mid ++ '.' :: ext))) from rfl]
    rw [hc]
    simp only [Bool.false_eq_true, if_false]
    rw [ih (fun c hcm => hmid c (List.mem_cons_of_mem _ hcm))]

theorem matchAfterSlash_full (stem ext : List Char)
    (hstem : stem ≠ [])
    (hws : ∀ c ∈ stem, isWsChar c = false)
    (hbase : matchRest ('.' :: ext) = some ('.' :: ext)) :
    matchAfterSlash (stem ++ '.' :: ext) = some (stem ++ '.' :: ext) := by
  cases stem with
  | nil => exact absurd rfl hstem
  | cons c mid =>
    have hc : isWsChar c = false := hws c (by simp)
    rw [List.cons_append]
    show matchAfterSlash (c :: (mid ++ '.' :: ext)) = some (c :: (mid ++ '.' :: ext))
    rw [show matchAfterSlash (c :: (mid ++ '.' :: ext)) =
        (if isWsChar c = true then none
         else
           match matchRest (mid ++ '.' :: ext) with
           | some t => some (c :: t)
           | none => none) from rfl]
    rw [hc]
    simp only [Bool.false_eq_true, if_false]
    rw [matchRest_full ext hbase mid
      (fun c hcm => hws c (List.mem_cons_of_mem _ hcm))]

theorem jsExtract_skip (pre cs : List Char)
    (h : ∀ c ∈ pre, c ≠ '/') :
    jsExtractSound (pre ++ cs) = jsExtractSound cs := by
  induction pre with
  | nil => rfl
  | cons c pre ih =>
    have hc : ¬ c = '/' := h c (by simp)
    rw [List.cons_append]
    show (if c = '/' then
        (match matchAfterSlash (pre ++ cs) with
         | some t => some ('/' :: t)
         | none => jsExtractSound (pre ++ cs))
      else jsExtractSound (pre ++ cs)) = jsExtractSound cs
    rw [if_neg hc]
    exact ih (fun c hcm => h c (List.mem_cons_of_mem _ hcm))

theorem jsExtract_path (stem ext : List Char)
    (hstem : stem ≠ [])
    (hws : ∀ c ∈ stem, isWsChar c = false)
    (hbase : matchRest ('.' :: ext) = some ('.' :: ext)) :
    jsExtractSound ('/' :: (stem ++ '.' :: ext)) =
      some ('/' :: (stem ++ '.' :: ext)) := by
  show (if ('/' : Char) = '/' then
      (match matchAfterSlash (stem ++ '.' :: ext) with
       | some t => some ('/' :: t)
       | none => jsExtractSound (stem ++ '.' :: ext))
    else jsExtractSound (stem ++ '.' :: ext)) =
    some ('/' :: (stem ++ '.' :: ext))
  rw [if_pos rfl, matchAfterSlash_full stem ext hstem hws hbase]

theorem cmdOf_hookEntry (c : String) : cmdOf (hookEntry c) = some c := rfl

theorem hooksObjD_write (d : Obj) (event : String) (v : JVal) :
    hooksObjD (writeHooksDoc d event v) =
      setK (hooksObjD (ensureHooks d)) event v := by
  unfold writeHooksDoc
  rw [hooksObjD_setHooks]

theorem entriesOf_write (d : Obj) (event : String) (pf : Platform)
    (P : String) (nf : Bool) :
    entriesOf (writeHooksDoc d event (setupHookVal pf P nf)) event =
      hookEntries pf P nf := by
  unfold entriesOf
  rw [hooksObjD_write, getK_setK_self]
  rfl

theorem truthyAt_write (d : Obj) (event : String) (pf : Platform)
    (P : String) (nf : Bool) :
    truthyAt (writeHooksDoc d event (setupHookVal pf P nf)) event = true := by
  rw [truthyAt_eq, hooksObjD_write, getK_setK_self]
  rfl

theorem isSoundCmd_sound (pf : Platform) (P : String)
    (hpf : pf = .darwin ∨ pf = .linux) :
    isSoundCmd (hookEntry (buildSoundCommand pf P)) = true := by
  rcases hpf with h | h <;> subst h
  · have hpre : hasSubS (buildSoundCommand .darwin P) "afplay" = true := by
      unfold hasSubS
      apply hasSub_of_prefix
      rw [show buildSoundCommand .darwin P = "afplay" ++ " " ++ P from rfl,
        String.data_append, String.data_append, List.append_assoc]
      exact isPrefixOf_append_left _ _
    show (hasSubS (buildSoundCommand .darwin P) "afplay" ||
      hasSubS (buildSoundCommand .darwin P) "paplay" ||
      hasSubS (buildSoundCommand .darwin P) "Media.SoundPlayer") = true
    rw [hpre]
    rfl
  · have hpre : hasSubS (buildSoundCommand .linux P) "paplay" = true := by
      unfold hasSubS
      apply hasSub_of_prefix
      rw [show buildSoundCommand .linux P = "paplay" ++ " " ++ P from rfl,
        String.data_append, String.data_append, List.append_assoc]
      exact isPrefixOf_append_left _ _
    show (hasSubS (buildSoundCommand .linux P) "afplay" ||
      hasSubS (buildSoundCommand .linux P) "paplay" ||
      hasSubS (buildSoundCommand .linux P) "Media.SoundPlayer") = true
    rw [hpre]
    simp

theorem extractSound_cmd (pf : Platform) (P : String) (stem ext : List Char)
    (hpf : pf = .darwin ∨ pf = .linux)
    (hP : P.data = '/' :: (stem ++ '.' :: ext))
    (hstem : stem ≠ []) (hws : ∀ c ∈ stem, isWsChar c = false)
    (hext : ext ∈ extAlts) :
    extractSound (buildSoundCommand pf P) = some P := by
  have hbase := extAlts_base ext hext
  rcases hpf with h | h <;> subst h
  · unfold extractSound
    rw [show buildSoundCommand .darwin P = "afplay" ++ " " ++ P from rfl,
      String.data_append, String.data_append]
    rw [jsExtract_skip (("afplay").data ++ (" ").data) P.data (by decide)]
    rw [hP, jsExtract_path stem ext hstem hws hbase, ← hP]
    rfl
  · unfold extractSound
    rw [show buildSoundCommand .linux P = "paplay" ++ " " ++ P from rfl,
      String.data_append, String.data_append]
    rw [jsExtract_skip (("paplay").data ++ (" ").data) P.data (by decide)]
    rw [hP, jsExtract_path stem ext hstem hws hbase, ← hP]
    rfl

theorem soundField_sound (pf : Platform) (P : String) (stem ext : List Char)
    (hpf : pf = .darwin ∨ pf = .linux)
    (hP : P.data = '/' :: (stem ++ '.' :: ext))
    (hstem : stem ≠ []) (hws : ∀ c ∈ stem, isWsChar c = false)
    (hext : ext ∈ extAlts) :
    soundField (hookEntry (buildSoundCommand pf P)) = P := by
  show (match extractSound (buildSoundCommand pf P) with
    | some p => p
    | none => buildSoundCommand pf P) = P
  rw [extractSound_cmd pf P stem ext hpf hP hstem hws hext]

theorem notify_mark (pf : Platform) (hpf : pf = .darwin ∨ pf = .linux) :
    hasDesktopMark (hookEntry (buildDesktopNotifyCommand pf)) = true := by
  rcases hpf with h | h <;> subst h <;> decide

theorem reportFor_write (pf : Platform) (d : Obj) (event : String)
    (P : String) (nf : Bool) (stem ext : List Char)
    (hpf : pf = .darwin ∨ pf = .linux)
    (hP : P.data = '/' :: (stem ++ '.' :: ext))
    (hstem : stem ≠ []) (hws : ∀ c ∈ stem, isWsChar c = false)
    (hext : ext ∈ extAlts)
    (hnm : hasDesktopMark (hookEntry (buildSoundCommand pf P)) = false) :
    reportFor (writeHooksDoc d event (setupHookVal pf P nf)) event =
      ⟨event, some P, nf⟩ := by
  have hsE := isSoundCmd_sound pf P hpf
  have hsf := soundField_sound pf P stem ext hpf hP hstem hws hext
  have hent := entriesOf_write d event pf P nf
  cases nf with
  | false =>
    have hfind : (hookEntries pf P false).find? isSoundCmd =
        some (hookEntry (buildSoundCommand pf P)) := by
      show List.find? isSoundCmd (hookEntry (buildSoundCommand pf P) :: []) = _
      rw [List.find?_cons_of_pos _ hsE]
    have hany : (hookEntries pf P false).any hasDesktopMark = false := by
      show (hookEntry (buildSoundCommand pf P) :: []).any hasDesktopMark = false
      simp [hnm]
    show EventReport.mk event
        (Option.map soundField
          (List.find? isSoundCmd (entriesOf (writeHooksDoc d event (setupHookVal pf P false)) event)))
        ((entriesOf (writeHooksDoc d event (setupHookVal pf P false)) event).any hasDesktopMark) =
      ⟨event, some P, false⟩
    rw [entriesOf_write d event pf P false, hfind, hany]
    simp [hsf]
  | true =>
    have hfind : (hookEntries pf P true).find? isSoundCmd =
        some (hookEntry (buildSoundCommand pf P)) := by
      show List.find? isSoundCmd (hookEntry (buildSoundCommand pf P) ::
        [hookEntry (buildDesktopNotifyCommand pf)]) = _
      rw [List.find?_cons_of_pos _ hsE]
    have hany : (hookEntries pf P true).any hasDesktopMark = true := by
      show (hookEntry (buildSoundCommand pf P) ::
        [hookEntry (buildDesktopNotifyCommand pf)]).any hasDesktopMark = true
      simp [hnm, notify_mark pf hpf]
    show EventReport.mk event
        (Option.map soundField
          (List.find? isSoundCmd (entriesOf (writeHooksDoc d event (setupHookVal pf P true)) event)))
        ((entriesOf (writeHooksDoc d event (setupHookVal pf P true)) event).any hasDesktopMark) =
      ⟨event, some P, true⟩
    rw [entriesOf_write d event pf P true, hfind, hany]
    simp [hsf]

/-- C6 (amended): on darwin and linux, for a managed event and any sound
argument whose resolved path `P` starts with `/`, has a non-empty
whitespace-free stem, ends in exactly one of the known audio extensions
(`.aiff`, `.wav`, `.mp3`, `.oga`), and whose sound command contains no
desktop-notification marker, a successful `setupNotification`
immediately followed by `getStatus` reports the event as ENABLED with
recovered sound equal to `P` (the platform default when the argument is
null satisfies these conditions) and recovered desktop-notification
flag equal to `notify`.  Outside these conditions the string-matching
recovery returns something else (see the counterexample). -/
theorem C6_setup_status_roundtrip (pf : Platform) (fsEx : String → Bool)
    (cwd : String) (event : String) (sp : Option String) (notify : Bool)
    (w w' : World) (d : Obj) (P : String) (stem ext : List Char)
    (hpf : pf = .darwin ∨ pf = .linux)
    (hr : readSettings w.sf = .ok d)
    (hev : event ∈ eventNames)
    (hres : resolveSound pf fsEx cwd sp = .ok P)
    (hsetup : setupNotification pf fsEx cwd event sp notify w = .ok w')
    (hP : P.data = '/' :: (stem ++ '.' :: ext))
    (hstem : stem ≠ []) (hws : ∀ c ∈ stem, isWsChar c = false)
    (hext : ext ∈ extAlts)
    (hnm : hasDesktopMark (hookEntry (buildSoundCommand pf P)) = false) :
    ∃ r, getStatus w' = .ok r ∧ r.kind = .enabled ∧
      (⟨event, some P, notify⟩ : EventReport) ∈ r.events := by
  rw [setup_shape pf fsEx cwd event sp notify w d hr, hres] at hsetup
  dsimp only at hsetup
  by_cases hfs : fsEx P = true
  · rw [if_pos hfs] at hsetup
    cases hsetup
    have htr := truthyAt_write d event pf P notify
    have hmem : event ∈ configuredEvents
        (writeHooksDoc d event (setupHookVal pf P notify)) :=
      List.mem_filter.mpr ⟨hev, by simpa using htr⟩
    have hce := isEmpty_false_of_ne_nil (List.ne_nil_of_mem hmem)
    rw [getStatus_eq ⟨SFile.ok (writeHooksDoc d event (setupHookVal pf P notify)),
        bfAfterBackup d w.bf⟩ (writeHooksDoc d event (setupHookVal pf P notify)) rfl]
    rw [if_neg (fun hc => absurd (hce.symm.trans hc) Bool.false_ne_true)]
    refine ⟨_, rfl, rfl, ?_⟩
    exact List.mem_map.mpr ⟨event, hmem,
      reportFor_write pf d event P notify stem ext hpf hP hstem hws hext hnm⟩
  · rw [if_neg hfs] at hsetup
    cases hsetup

/-- C6 counterexample: the resolved absolute path `/a b.wav` contains a
space, so the recovery regex finds no match and `getStatus` reports the
WHOLE command string `afplay /a b.wav` as the sound — not the resolved
path the claim promises. -/
theorem C6_counterexample :
    setupNotification .darwin (fun _ => true) "/" "Stop" (some "/a b.wav")
        false ⟨.missing, .absent⟩ =
      .ok ⟨.ok (writeHooksDoc [] "Stop" (setupHookVal .darwin "/a b.wav" false)),
           .absent⟩ ∧
    getStatus ⟨.ok (writeHooksDoc [] "Stop"
        (setupHookVal .darwin "/a b.wav" false)), .absent⟩ =
      .ok ⟨.enabled, [⟨"Stop", some "afplay /a b.wav", false⟩], []⟩ ∧
    some "afplay /a b.wav" ≠ some "/a b.wav" := by
  refine ⟨rfl, rfl, by decide⟩

/-- C6 witness: `C6_setup_status_roundtrip` on darwin with the null
sound argument, whose resolved path is the platform default
`/System/Library/Sounds/Glass.aiff`. -/
theorem C6_witness :
    ∃ r, getStatus ⟨SFile.ok (writeHooksDoc [] "Stop"
        (setupHookVal .darwin "/System/Library/Sounds/Glass.aiff" true)),
        BFile.absent⟩ = .ok r ∧ r.kind = .enabled ∧
      (⟨"Stop", some "/System/Library/Sounds/Glass.aiff", true⟩ : EventReport)
        ∈ r.events :=
  C6_setup_status_roundtrip .darwin (fun _ => true) "/" "Stop" none true
    ⟨.missing, .absent⟩
    ⟨SFile.ok (writeHooksDoc [] "Stop"
        (setupHookVal .darwin "/System/Library/Sounds/Glass.aiff" true)),
     BFile.absent⟩
    [] "/System/Library/Sounds/Glass.aiff"
    ("System/Library/Sounds/Glass").data ("aiff").data
    (Or.inl rfl) rfl (by decide) rfl rfl (by decide) (by decide)
    (by decide) (by decide) (by decide)
